import Mathlib

/-!
Verification of the Animation Retimer core (src/Animation_Retimer.py).

The development shallowly embeds the retiming engine over exact rationals:
keyframe times, values and marker frames become `ℚ`; Python dicts become
association lists with replace-or-append insertion (preserving insertion
order, as Python dicts do); Python's stable `sorted` becomes Mathlib's
stable `List.insertionSort`; Python's banker's `round` becomes `pyRound`.
-/

namespace AnimRetimer

/-- One animation keyframe sample, as captured by
`store_initial_keyframe_data_for_object`: `(kp.co.x, kp.co.y,
kp.interpolation, kp.handle_left, kp.handle_right, kp.type)`.
Handles are 2D points; `deepcopy` is the identity under value semantics. -/
structure Keyframe where
  x : ℚ
  y : ℚ
  interpolation : String
  handle_left : ℚ × ℚ
  handle_right : ℚ × ℚ
  ktype : String
deriving DecidableEq

/-- Result of `find_segment`: a segment index, the string `'before'`,
the string `'after'`, or Python `None` (`nf`). -/
inductive SegLoc where
  | idx : ℕ → SegLoc
  | before : SegLoc
  | after : SegLoc
  | nf : SegLoc
deriving DecidableEq

/-- The `for i, (start, end) in enumerate(segments)` loop of `find_segment`
(src lines 48-62), recursing over the remaining segments; `i` is the index of
the head of the remaining list within the full list, so `segments[i+1][0]`
is the head of `rest`.  Note the inner `elif start <= frame <= end` repeats
the outer condition, so a containing segment always returns its index. -/
def findSegLoop (frame : ℚ) : List (ℚ × ℚ) → ℕ → Option ℕ
  | [], _ => none
  | seg :: rest, i =>
    if seg.1 ≤ frame ∧ frame ≤ seg.2 then
      if frame = seg.2 ∧ rest ≠ [] ∧ (rest.headD (0, 0)).1 = frame then some i
      else if seg.1 ≤ frame ∧ frame ≤ seg.2 then some i
      else findSegLoop frame rest (i + 1)
    else findSegLoop frame rest (i + 1)

/-- `find_segment(frame, segments)` (src lines 43-71). -/
def find_segment (frame : ℚ) (segments : List (ℚ × ℚ)) : SegLoc :=
  match segments with
  | [] => SegLoc.nf
  | s0 :: rest =>
    match findSegLoop frame (s0 :: rest) 0 with
    | some i => SegLoc.idx i
    | none =>
      if frame < s0.1 then SegLoc.before
      else if ((s0 :: rest).getLastD (0, 0)).2 < frame then SegLoc.after
      else SegLoc.nf

/-- Whether `frame` lies inside segment `k` (inclusive on both ends). -/
def containsAt (segments : List (ℚ × ℚ)) (k : ℕ) (frame : ℚ) : Prop :=
  (segments.getD k (0, 0)).1 ≤ frame ∧ frame ≤ (segments.getD k (0, 0)).2

instance (segments : List (ℚ × ℚ)) (k : ℕ) (frame : ℚ) :
    Decidable (containsAt segments k frame) := by
  unfold containsAt; infer_instance

/-- The within-segment remap formula of the spec (§4.2): degenerate original
segments collapse to the current start, otherwise linear interpolation. -/
def segmentFormula (t : ℚ) (oseg cseg : ℚ × ℚ) : ℚ :=
  if |oseg.2 - oseg.1| < 1 / 10000 then cseg.1
  else cseg.1 + (t - oseg.1) / (oseg.2 - oseg.1) * (cseg.2 - cseg.1)

/-- The `new_x` computation of `process_retiming` (src lines 266-288): default
`orig_x`, the guard `if original_segments and current_segments`, then the
`'before'`/`'after'` rigid translations or the within-segment formula.
The `current_segments[segment_idx]` read is modelled with `[i]?`; its
`none` case returns `orig_x` and is unreachable in this program because the
two segment lists are always built pairwise with equal lengths. -/
def mapTime (orig_x : ℚ) (original_segments current_segments : List (ℚ × ℚ)) : ℚ :=
  if original_segments.isEmpty || current_segments.isEmpty then orig_x
  else
    match find_segment orig_x original_segments with
    | SegLoc.before =>
      orig_x + ((current_segments.headD (0, 0)).1 - (original_segments.headD (0, 0)).1)
    | SegLoc.after =>
      orig_x + ((current_segments.getLastD (0, 0)).2 - (original_segments.getLastD (0, 0)).2)
    | SegLoc.idx i =>
      if i < original_segments.length then
        match original_segments[i]?, current_segments[i]? with
        | some oseg, some cseg => segmentFormula orig_x oseg cseg
        | _, _ => orig_x
      else orig_x
    | SegLoc.nf => orig_x

theorem findSegLoop_eq_some_iff (frame : ℚ) :
    ∀ (segments : List (ℚ × ℚ)) (i j : ℕ),
      findSegLoop frame segments i = some j ↔
        (i ≤ j ∧ j - i < segments.length ∧ containsAt segments (j - i) frame ∧
          ∀ k, k < j - i → ¬ containsAt segments k frame) := by
  intro segments
  induction segments with
  | nil => intro i j; simp [findSegLoop]
  | cons seg rest ih =>
    intro i j
    have hstep : findSegLoop frame (seg :: rest) i =
        if seg.1 ≤ frame ∧ frame ≤ seg.2 then
          if frame = seg.2 ∧ rest ≠ [] ∧ (rest.headD (0, 0)).1 = frame then some i
          else if seg.1 ≤ frame ∧ frame ≤ seg.2 then some i
          else findSegLoop frame rest (i + 1)
        else findSegLoop frame rest (i + 1) := rfl
    by_cases h0 : seg.1 ≤ frame ∧ frame ≤ seg.2
    · have hloop : findSegLoop frame (seg :: rest) i = some i := by
        by_cases hb : frame = seg.2 ∧ rest ≠ [] ∧ (rest.headD (0, 0)).1 = frame
        · rw [hstep, if_pos h0, if_pos hb]
        · rw [hstep, if_pos h0, if_neg hb, if_pos h0]
      rw [hloop]
      constructor
      · rintro h; cases h
        refine ⟨le_refl i, by simp, ?_, by omega⟩
        simpa [containsAt] using h0
      · rintro ⟨hij, _, hc, hmin⟩
        have hji : j = i := by
          by_contra hne
          have h1 : (0 : ℕ) < j - i := by omega
          exact hmin 0 h1 (by simpa [containsAt] using h0)
        simp [hji]
    · have hloop : findSegLoop frame (seg :: rest) i = findSegLoop frame rest (i + 1) := by
        rw [hstep, if_neg h0]
      rw [hloop, ih (i + 1) j]
      constructor
      · rintro ⟨hij, hlen, hc, hmin⟩
        refine ⟨by omega, by simp; omega, ?_, ?_⟩
        · have hd : j - i = (j - (i + 1)) + 1 := by omega
          rw [hd]; simpa [containsAt] using hc
        · intro k hk
          match k with
          | 0 => simpa [containsAt] using h0
          | Nat.succ k2 =>
            have hk2 : k2 < j - (i + 1) := by omega
            have := hmin k2 hk2
            simpa [containsAt] using this
      · rintro ⟨hij, hlen, hc, hmin⟩
        have hne : j ≠ i := by
          rintro rfl
          exact h0 (by simpa [containsAt] using hc)
        refine ⟨by omega, by simp at hlen; omega, ?_, ?_⟩
        · have hd : j - i = (j - (i + 1)) + 1 := by omega
          rw [hd] at hc; simpa [containsAt] using hc
        · intro k hk
          have hk1 : k + 1 < j - i := by omega
          have := hmin (k + 1) hk1
          simpa [containsAt] using this

theorem findSegLoop_eq_none (frame : ℚ) (segments : List (ℚ × ℚ))
    (h : ∀ k, k < segments.length → ¬ containsAt segments k frame) :
    findSegLoop frame segments 0 = none := by
  cases hv : findSegLoop frame segments 0 with
  | none => rfl
  | some j =>
    rw [findSegLoop_eq_some_iff] at hv
    exact absurd (hv.2.2.1) (h _ (by simpa using hv.2.1))

theorem find_segment_cons_unfold (frame : ℚ) (s0 : ℚ × ℚ) (rest : List (ℚ × ℚ)) :
    find_segment frame (s0 :: rest) =
      match findSegLoop frame (s0 :: rest) 0 with
      | some i => SegLoc.idx i
      | none =>
        if frame < s0.1 then SegLoc.before
        else if ((s0 :: rest).getLastD (0, 0)).2 < frame then SegLoc.after
        else SegLoc.nf := rfl

theorem find_segment_idx_iff (frame : ℚ) (segments : List (ℚ × ℚ)) (i : ℕ) :
    find_segment frame segments = SegLoc.idx i ↔
      (i < segments.length ∧ containsAt segments i frame ∧
        ∀ k, k < i → ¬ containsAt segments k frame) := by
  cases segments with
  | nil => simp [find_segment]
  | cons s0 rest =>
    have hunf := find_segment_cons_unfold frame s0 rest
    cases hv : findSegLoop frame (s0 :: rest) 0 with
    | some j =>
      have hfs : find_segment frame (s0 :: rest) = SegLoc.idx j := by
        rw [hunf, hv]
      rw [findSegLoop_eq_some_iff] at hv
      simp only [Nat.sub_zero] at hv
      rw [hfs]
      constructor
      · intro h
        have hji : j = i := by simpa using h
        subst hji
        exact ⟨hv.2.1, hv.2.2.1, hv.2.2.2⟩
      · rintro ⟨hlen, hc, hmin⟩
        have hji : j = i := by
          rcases Nat.lt_trichotomy j i with hlt | heq | hgt
          · exact absurd hv.2.2.1 (hmin j hlt)
          · exact heq
          · exact absurd hc (hv.2.2.2 i hgt)
        simp [hji]
    | none =>
      have hfs : find_segment frame (s0 :: rest) ≠ SegLoc.idx i := by
        rw [hunf, hv]
        split_ifs <;> simp
      have hnc : ¬ (i < (s0 :: rest).length ∧ containsAt (s0 :: rest) i frame ∧
          ∀ k, k < i → ¬ containsAt (s0 :: rest) k frame) := by
        rintro ⟨hlen, hc, hmin⟩
        have h2 : findSegLoop frame (s0 :: rest) 0 = some i :=
          (findSegLoop_eq_some_iff frame (s0 :: rest) 0 i).mpr
            ⟨Nat.zero_le i, by simpa using hlen, by simpa using hc, by simpa using hmin⟩
        rw [hv] at h2
        exact absurd h2 (by simp)
      exact iff_of_false hfs hnc

theorem find_segment_ne_nil {frame : ℚ} {segments : List (ℚ × ℚ)} {i : ℕ}
    (h : find_segment frame segments = SegLoc.idx i) : segments ≠ [] := by
  intro hnil
  subst hnil
  simp [find_segment] at h

/-- When `find_segment` locates segment `i` and the current-segment list is
long enough, `mapTime` computes the spec's within-segment formula. -/
theorem mapTime_of_idx {t : ℚ} {os cs : List (ℚ × ℚ)} {i : ℕ}
    (h : find_segment t os = SegLoc.idx i) (hc : i < cs.length) :
    mapTime t os cs = segmentFormula t (os.getD i (0, 0)) (cs.getD i (0, 0)) := by
  have hos : os ≠ [] := find_segment_ne_nil h
  have hlen : i < os.length := ((find_segment_idx_iff t os i).mp h).1
  have hcs : cs ≠ [] := by
    intro hnil; subst hnil; simp at hc
  have hstep : mapTime t os cs =
      if i < os.length then
        match os[i]?, cs[i]? with
        | some oseg, some cseg => segmentFormula t oseg cseg
        | _, _ => t
      else t := by
    unfold mapTime
    rw [if_neg (by simp [List.isEmpty_iff, hos, hcs]), h]
  rw [hstep, if_pos hlen, List.getElem?_eq_getElem hlen, List.getElem?_eq_getElem hc]
  rw [List.getD_eq_getElem os (0, 0) hlen, List.getD_eq_getElem cs (0, 0) hc]

theorem find_segment_before {t : ℚ} {os : List (ℚ × ℚ)} (hos : os ≠ [])
    (hnone : ∀ k, k < os.length → ¬ containsAt os k t)
    (hlt : t < (os.headD (0, 0)).1) : find_segment t os = SegLoc.before := by
  cases os with
  | nil => simp at hos
  | cons s0 rest =>
    rw [find_segment_cons_unfold, findSegLoop_eq_none t _ hnone]
    show (if t < s0.1 then SegLoc.before
      else if ((s0 :: rest).getLastD (0, 0)).2 < t then SegLoc.after
      else SegLoc.nf) = SegLoc.before
    rw [if_pos (by simpa using hlt)]

theorem find_segment_after {t : ℚ} {os : List (ℚ × ℚ)} (hos : os ≠ [])
    (hnone : ∀ k, k < os.length → ¬ containsAt os k t)
    (hge : ¬ t < (os.headD (0, 0)).1)
    (hgt : (os.getLastD (0, 0)).2 < t) : find_segment t os = SegLoc.after := by
  cases os with
  | nil => simp at hos
  | cons s0 rest =>
    rw [find_segment_cons_unfold, findSegLoop_eq_none t _ hnone]
    show (if t < s0.1 then SegLoc.before
      else if ((s0 :: rest).getLastD (0, 0)).2 < t then SegLoc.after
      else SegLoc.nf) = SegLoc.after
    rw [if_neg (by simpa using hge), if_pos hgt]

theorem mapTime_of_before {t : ℚ} {os cs : List (ℚ × ℚ)} (hos : os ≠ []) (hcs : cs ≠ [])
    (h : find_segment t os = SegLoc.before) :
    mapTime t os cs = t + ((cs.headD (0, 0)).1 - (os.headD (0, 0)).1) := by
  unfold mapTime
  rw [if_neg (by simp [List.isEmpty_iff, hos, hcs]), h]

theorem mapTime_of_after {t : ℚ} {os cs : List (ℚ × ℚ)} (hos : os ≠ []) (hcs : cs ≠ [])
    (h : find_segment t os = SegLoc.after) :
    mapTime t os cs = t + ((cs.getLastD (0, 0)).2 - (os.getLastD (0, 0)).2) := by
  unfold mapTime
  rw [if_neg (by simp [List.isEmpty_iff, hos, hcs]), h]

theorem getLastD_eq_getD_pred {α : Type} (d : α) :
    ∀ l : List α, l.getLastD d = l.getD (l.length - 1) d := by
  intro l
  induction l with
  | nil => rfl
  | cons a t ih =>
    cases t with
    | nil => rfl
    | cons b t2 =>
      have h1 : (a :: b :: t2).getLastD d = (b :: t2).getLastD d := by
        simp [List.getLastD]
      rw [h1, ih]
      have h2 : (a :: b :: t2).length - 1 = ((b :: t2).length - 1) + 1 := by
        simp
      rw [h2, List.getD_cons_succ]

/-- In a contiguous, strictly increasing segment list, the end of any earlier
segment is at most the start of any later one. -/
theorem seg_chain_end_le_start {os : List (ℚ × ℚ)}
    (hcont : ∀ j, j + 1 < os.length → (os.getD j (0, 0)).2 = (os.getD (j + 1) (0, 0)).1)
    (hmono : ∀ j, j < os.length → (os.getD j (0, 0)).1 < (os.getD j (0, 0)).2) :
    ∀ j k, k < j → j < os.length → (os.getD k (0, 0)).2 ≤ (os.getD j (0, 0)).1 := by
  intro j
  induction j with
  | zero => intro k hk; omega
  | succ j ih =>
    intro k hk hlen
    have hcj : (os.getD j (0, 0)).2 = (os.getD (j + 1) (0, 0)).1 := hcont j hlen
    rcases Nat.lt_succ_iff_lt_or_eq.mp hk with hk2 | hk2
    · have h1 := ih k hk2 (by omega)
      have h2 := hmono j (by omega)
      linarith
    · subst hk2; linarith

theorem seg_chain_start_zero_le {os : List (ℚ × ℚ)}
    (hcont : ∀ j, j + 1 < os.length → (os.getD j (0, 0)).2 = (os.getD (j + 1) (0, 0)).1)
    (hse : ∀ j, j < os.length → (os.getD j (0, 0)).1 ≤ (os.getD j (0, 0)).2) :
    ∀ k, k < os.length → (os.getD 0 (0, 0)).1 ≤ (os.getD k (0, 0)).1 := by
  intro k
  induction k with
  | zero => intro _; exact le_refl _
  | succ k ih =>
    intro hlen
    have h1 := ih (by omega)
    have h2 := hse k (by omega)
    have h3 := hcont k hlen
    linarith

theorem seg_chain_end_le_end {os : List (ℚ × ℚ)}
    (hcont : ∀ j, j + 1 < os.length → (os.getD j (0, 0)).2 = (os.getD (j + 1) (0, 0)).1)
    (hse : ∀ j, j < os.length → (os.getD j (0, 0)).1 ≤ (os.getD j (0, 0)).2) :
    ∀ d k, k + d < os.length → (os.getD k (0, 0)).2 ≤ (os.getD (k + d) (0, 0)).2 := by
  intro d
  induction d with
  | zero => intro k _; exact le_refl _
  | succ d ih =>
    intro k hlen
    have h1 : (os.getD (k + d) (0, 0)).2 = (os.getD (k + d + 1) (0, 0)).1 := by
      have := hcont (k + d) (by omega)
      simpa using this
    have h2 := hse (k + d + 1) (by omega)
    have h3 := ih k (by omega)
    have h4 : k + (d + 1) = k + d + 1 := by omega
    rw [h4]
    linarith

/-- C1: within segment i — i being the segment selected by `find_segment`,
per the spec's "Locate segment i" step (boundary ties resolve to the earlier
segment, see C5) — the remap computes `currentStart_i` when
`|originalEnd_i - originalStart_i| < 1e-4`, and otherwise
`currentStart_i + ((t - originalStart_i)/(originalEnd_i - originalStart_i)) *
(currentEnd_i - currentStart_i)`; in particular with breakpoints originally
at [0, 50, 100] moved to [0, 80, 100], time 25 maps to 40 and time 75 maps
to 90, and with segment [0,50] compressed to [0,0], time 30 maps to 0. -/
theorem C1_within_segment_mapping :
    (∀ (t : ℚ) (os cs : List (ℚ × ℚ)) (i : ℕ),
        find_segment t os = SegLoc.idx i → i < cs.length →
        mapTime t os cs = segmentFormula t (os.getD i (0, 0)) (cs.getD i (0, 0)))
    ∧ mapTime 25 [(0, 50), (50, 100)] [(0, 80), (80, 100)] = 40
    ∧ mapTime 75 [(0, 50), (50, 100)] [(0, 80), (80, 100)] = 90
    ∧ mapTime 30 [(0, 50)] [(0, 0)] = 0 := by
  refine ⟨fun t os cs i h hc => mapTime_of_idx h hc, ?_, ?_, ?_⟩
  · norm_num [mapTime, find_segment, findSegLoop, segmentFormula, abs]
  · norm_num [mapTime, find_segment, findSegLoop, segmentFormula, abs]
  · norm_num [mapTime, find_segment, findSegLoop, segmentFormula, abs]

theorem C1_within_segment_mapping_witness :
    find_segment 25 [((0 : ℚ), (50 : ℚ)), (50, 100)] = SegLoc.idx 0 ∧
    (0 : ℕ) < ([((0 : ℚ), (80 : ℚ)), (80, 100)].length) ∧
    mapTime 25 [(0, 50), (50, 100)] [(0, 80), (80, 100)] =
      segmentFormula 25 ([((0 : ℚ), (50 : ℚ)), (50, 100)].getD 0 (0, 0))
        ([((0 : ℚ), (80 : ℚ)), (80, 100)].getD 0 (0, 0)) := by
  have hseg : find_segment 25 [((0 : ℚ), (50 : ℚ)), (50, 100)] = SegLoc.idx 0 := by
    norm_num [find_segment, findSegLoop]
  exact ⟨hseg, by norm_num,
    C1_within_segment_mapping.1 25 [(0, 50), (50, 100)] [(0, 80), (80, 100)] 0 hseg
      (by norm_num)⟩

/-- C5: in a contiguous sorted segment list (each segment's end equals the
next segment's start, and each original segment has positive length), a time
exactly on the shared boundary of adjacent segments i and i+1 (t = end_i =
start_{i+1}) is located by `find_segment` in the earlier segment i, and its
remapped value is computed from segment i's mapping. -/
theorem C5_shared_boundary_belongs_to_earlier_segment
    (os : List (ℚ × ℚ)) (i : ℕ)
    (hcont : ∀ j, j + 1 < os.length → (os.getD j (0, 0)).2 = (os.getD (j + 1) (0, 0)).1)
    (hmono : ∀ j, j < os.length → (os.getD j (0, 0)).1 < (os.getD j (0, 0)).2)
    (hi : i + 1 < os.length) :
    find_segment ((os.getD i (0, 0)).2) os = SegLoc.idx i ∧
    ∀ cs : List (ℚ × ℚ), i < cs.length →
      mapTime ((os.getD i (0, 0)).2) os cs =
        segmentFormula ((os.getD i (0, 0)).2) (os.getD i (0, 0)) (cs.getD i (0, 0)) := by
  have hfs : find_segment ((os.getD i (0, 0)).2) os = SegLoc.idx i := by
    rw [find_segment_idx_iff]
    refine ⟨by omega, ⟨le_of_lt (hmono i (by omega)), le_refl _⟩, ?_⟩
    intro k hk hcontain
    have h1 : (os.getD k (0, 0)).2 ≤ (os.getD i (0, 0)).1 :=
      seg_chain_end_le_start hcont hmono i k hk (by omega)
    have h2 := hmono i (by omega)
    rcases hcontain with ⟨_, hk2⟩
    linarith
  exact ⟨hfs, fun cs hc => mapTime_of_idx hfs hc⟩

theorem C5_shared_boundary_belongs_to_earlier_segment_witness :
    find_segment 50 [((0 : ℚ), (50 : ℚ)), (50, 100)] = SegLoc.idx 0 ∧
    mapTime 50 [(0, 50), (50, 100)] [(0, 80), (80, 100)] =
      segmentFormula 50 ([((0 : ℚ), (50 : ℚ)), (50, 100)].getD 0 (0, 0))
        ([((0 : ℚ), (80 : ℚ)), (80, 100)].getD 0 (0, 0)) := by
  have hcont : ∀ j, j + 1 < ([((0 : ℚ), (50 : ℚ)), (50, 100)]).length →
      (([((0 : ℚ), (50 : ℚ)), (50, 100)]).getD j (0, 0)).2 =
        (([((0 : ℚ), (50 : ℚ)), (50, 100)]).getD (j + 1) (0, 0)).1 := by
    intro j hj
    match j with
    | 0 => norm_num
    | j + 1 => simp only [List.length_cons, List.length_nil] at hj; omega
  have hmono : ∀ j, j < ([((0 : ℚ), (50 : ℚ)), (50, 100)]).length →
      (([((0 : ℚ), (50 : ℚ)), (50, 100)]).getD j (0, 0)).1 <
        (([((0 : ℚ), (50 : ℚ)), (50, 100)]).getD j (0, 0)).2 := by
    intro j hj
    match j with
    | 0 => norm_num
    | 1 => norm_num
    | j + 2 => simp only [List.length_cons, List.length_nil] at hj; omega
  have h := C5_shared_boundary_belongs_to_earlier_segment
    [((0 : ℚ), (50 : ℚ)), (50, 100)] 0 hcont hmono (by norm_num)
  refine ⟨by simpa using h.1, ?_⟩
  have h2 := h.2 [((0 : ℚ), (80 : ℚ)), (80, 100)] (by norm_num)
  simpa using h2

/-- C6: a time strictly before the first original segment start is mapped by
the rigid translation `t + (currentStart_0 - originalStart_0)`; a time
strictly after the last original segment end is mapped by
`t + (currentEnd_last - originalEnd_last)`; hence on each of those two ranges
`map(t) - t` is constant for a fixed segment configuration. -/
theorem C6_outside_ranges_are_rigid_translations
    (os cs : List (ℚ × ℚ)) (hos : os ≠ []) (hcs : cs ≠ [])
    (hcont : ∀ j, j + 1 < os.length → (os.getD j (0, 0)).2 = (os.getD (j + 1) (0, 0)).1)
    (hse : ∀ j, j < os.length → (os.getD j (0, 0)).1 ≤ (os.getD j (0, 0)).2) :
    (∀ t, t < (os.headD (0, 0)).1 →
        mapTime t os cs = t + ((cs.headD (0, 0)).1 - (os.headD (0, 0)).1))
    ∧ (∀ t, (os.getLastD (0, 0)).2 < t →
        mapTime t os cs = t + ((cs.getLastD (0, 0)).2 - (os.getLastD (0, 0)).2))
    ∧ (∀ t u, t < (os.headD (0, 0)).1 → u < (os.headD (0, 0)).1 →
        mapTime t os cs - t = mapTime u os cs - u)
    ∧ (∀ t u, (os.getLastD (0, 0)).2 < t → (os.getLastD (0, 0)).2 < u →
        mapTime t os cs - t = mapTime u os cs - u) := by
  have hhead : (os.headD (0, 0)) = os.getD 0 (0, 0) := by
    cases os with
    | nil => simp at hos
    | cons s0 rest => simp
  have hlast : (os.getLastD (0, 0)) = os.getD (os.length - 1) (0, 0) :=
    getLastD_eq_getD_pred (0, 0) os
  have hlen : 0 < os.length := List.length_pos.mpr hos
  have hbefore : ∀ t, t < (os.headD (0, 0)).1 →
      mapTime t os cs = t + ((cs.headD (0, 0)).1 - (os.headD (0, 0)).1) := by
    intro t ht
    have hnone : ∀ k, k < os.length → ¬ containsAt os k t := by
      intro k hk hcontain
      have h1 := seg_chain_start_zero_le hcont hse k hk
      rw [hhead] at ht
      rcases hcontain with ⟨hk1, _⟩
      linarith
    exact mapTime_of_before hos hcs (find_segment_before hos hnone ht)
  have hafter : ∀ t, (os.getLastD (0, 0)).2 < t →
      mapTime t os cs = t + ((cs.getLastD (0, 0)).2 - (os.getLastD (0, 0)).2) := by
    intro t ht
    have hnone : ∀ k, k < os.length → ¬ containsAt os k t := by
      intro k hk hcontain
      have h1 : (os.getD k (0, 0)).2 ≤ (os.getD (os.length - 1) (0, 0)).2 := by
        have h2 := seg_chain_end_le_end hcont hse (os.length - 1 - k) k (by omega)
        have h3 : k + (os.length - 1 - k) = os.length - 1 := by omega
        rw [h3] at h2
        exact h2
      rw [hlast] at ht
      rcases hcontain with ⟨_, hk2⟩
      linarith
    have hge : ¬ t < (os.headD (0, 0)).1 := by
      push_neg
      have h1 := hse 0 hlen
      have h2 : (os.getD 0 (0, 0)).2 ≤ (os.getD (os.length - 1) (0, 0)).2 := by
        have h3 := seg_chain_end_le_end hcont hse (os.length - 1) 0 (by omega)
        simpa using h3
      rw [hlast] at ht
      rw [hhead]
      linarith
    exact mapTime_of_after hos hcs (find_segment_after hos hnone hge ht)
  refine ⟨hbefore, hafter, ?_, ?_⟩
  · intro t u ht hu
    rw [hbefore t ht, hbefore u hu]
    ring
  · intro t u ht hu
    rw [hafter t ht, hafter u hu]
    ring

theorem C6_outside_ranges_are_rigid_translations_witness :
    mapTime (-5) [((0 : ℚ), (50 : ℚ)), (50, 100)] [(0, 80), (80, 100)] = -5 + (0 - 0) ∧
    mapTime 150 [((0 : ℚ), (50 : ℚ)), (50, 100)] [(0, 80), (80, 100)] = 150 + (100 - 100) ∧
    mapTime (-5) [((0 : ℚ), (50 : ℚ)), (50, 100)] [(0, 80), (80, 100)] - (-5) =
      mapTime (-7) [((0 : ℚ), (50 : ℚ)), (50, 100)] [(0, 80), (80, 100)] - (-7) := by
  have hcont : ∀ j, j + 1 < ([((0 : ℚ), (50 : ℚ)), (50, 100)]).length →
      (([((0 : ℚ), (50 : ℚ)), (50, 100)]).getD j (0, 0)).2 =
        (([((0 : ℚ), (50 : ℚ)), (50, 100)]).getD (j + 1) (0, 0)).1 := by
    intro j hj
    match j with
    | 0 => norm_num
    | j + 1 => simp only [List.length_cons, List.length_nil] at hj; omega
  have hse : ∀ j, j < ([((0 : ℚ), (50 : ℚ)), (50, 100)]).length →
      (([((0 : ℚ), (50 : ℚ)), (50, 100)]).getD j (0, 0)).1 ≤
        (([((0 : ℚ), (50 : ℚ)), (50, 100)]).getD j (0, 0)).2 := by
    intro j hj
    match j with
    | 0 => norm_num
    | 1 => norm_num
    | j + 2 => simp only [List.length_cons, List.length_nil] at hj; omega
  have h := C6_outside_ranges_are_rigid_translations
    [((0 : ℚ), (50 : ℚ)), (50, 100)] [(0, 80), (80, 100)]
    (by simp) (by simp) hcont hse
  refine ⟨?_, ?_, ?_⟩
  · have h1 := h.1 (-5) (by norm_num)
    simpa using h1
  · have h2 := h.2.1 150 (by norm_num)
    simpa using h2
  · exact h.2.2.1 (-5) (-7) (by norm_num) (by norm_num)

/-- Python 3's builtin `round` on exact values: round half to even
(banker's rounding), e.g. `round(2.5) == 2`, `round(1.5) == 2`,
`round(-0.5) == 0`. -/
def pyRound (q : ℚ) : ℤ :=
  if q - ⌊q⌋ < 1 / 2 then ⌊q⌋
  else if 1 / 2 < q - ⌊q⌋ then ⌊q⌋ + 1
  else if ⌊q⌋ % 2 = 0 then ⌊q⌋ else ⌊q⌋ + 1

/-- Python dict assignment `d[k] = v` on an association list: replace the
binding in place when the key exists, else append (insertion order kept). -/
def dictInsert {α β : Type} [DecidableEq α] : List (α × β) → α → β → List (α × β)
  | [], k, v => [(k, v)]
  | (k1, v1) :: t, k, v =>
    if k = k1 then (k1, v) :: t else (k1, v1) :: dictInsert t k v

/-- Python dict lookup `d.get(k)`. -/
def dictGet {α β : Type} [DecidableEq α] (k : α) : List (α × β) → Option β
  | [] => none
  | (k1, v) :: t => if k = k1 then some v else dictGet k t

/-- Python `defaultdict(list)` append `d[k].append(v)`. -/
def multiInsert {α β : Type} [DecidableEq α] : List (α × List β) → α → β → List (α × List β)
  | [], k, v => [(k, [v])]
  | (k1, vs) :: t, k, v =>
    if k = k1 then (k1, vs ++ [v]) :: t else (k1, vs) :: multiInsert t k v

/-- Placeholder for the `keys_at_frame[0]` read; every group built by the
quantizer is nonempty, so this default is never the result. -/
def defaultKeyframe : Keyframe :=
  { x := 0, y := 0, interpolation := "", handle_left := (0, 0),
    handle_right := (0, 0), ktype := "" }

/-- The merge step of the snapping branch (src lines 304-309): sort the
group by distance of the calculated x to the rounded target frame (Python's
stable sort), take the first, and give it the integer target as time. -/
def bestKey (rks : ℤ × List Keyframe) : Keyframe :=
  { (List.insertionSort
      (fun a b => |a.x - (rks.1 : ℚ)| ≤ |b.x - (rks.1 : ℚ)|) rks.2).headD defaultKeyframe
    with x := (rks.1 : ℚ) }

/-- The snapping-and-merging block of `process_retiming` (src lines 294-313):
with snapping, group the calculated keys by `round(calc_x)` into
`temp_grouped_keys` and keep the best of each group under the integer frame;
without snapping, key the dict by the exact calculated x so that exact
duplicates collapse to the last one.  Returns the values of
`final_keys_to_insert` in dict insertion order. -/
def quantizeKeys (snap : Bool) (calculated : List Keyframe) : List Keyframe :=
  if snap then
    let grouped := calculated.foldl (fun g k => multiInsert g (pyRound k.x) k) []
    (grouped.foldl (fun d rks => dictInsert d rks.1 (bestKey rks)) []).map Prod.snd
  else
    (calculated.foldl (fun d k => dictInsert d k.x k) []).map Prod.snd

theorem dictGet_dictInsert {α β : Type} [DecidableEq α] (d : List (α × β)) (k k2 : α) (v : β) :
    dictGet k (dictInsert d k2 v) = if k = k2 then some v else dictGet k d := by
  induction d with
  | nil => by_cases h : k = k2 <;> simp [dictInsert, dictGet, h]
  | cons kv t ih =>
    obtain ⟨k1, v1⟩ := kv
    by_cases h1 : k2 = k1
    · subst h1
      by_cases h : k = k2 <;> simp [dictInsert, dictGet, h]
    · have hstep : dictInsert ((k1, v1) :: t) k2 v = (k1, v1) :: dictInsert t k2 v := by
        simp [dictInsert, h1]
      rw [hstep]
      by_cases h : k = k1
      · subst h
        have hne : k ≠ k2 := fun hc => h1 (hc.symm)
        simp [dictGet, hne]
      · simp [dictGet, h, ih]

theorem dictGet_multiInsert {α β : Type} [DecidableEq α] (g : List (α × List β))
    (k k2 : α) (v : β) :
    dictGet k (multiInsert g k2 v) =
      if k = k2 then some ((dictGet k g).getD [] ++ [v]) else dictGet k g := by
  induction g with
  | nil => by_cases h : k = k2 <;> simp [multiInsert, dictGet, h]
  | cons kv t ih =>
    obtain ⟨k1, vs⟩ := kv
    by_cases h1 : k2 = k1
    · subst h1
      by_cases h : k = k2 <;> simp [multiInsert, dictGet, h]
    · have hstep : multiInsert ((k1, vs) :: t) k2 v = (k1, vs) :: multiInsert t k2 v := by
        simp [multiInsert, h1]
      rw [hstep]
      by_cases h : k = k1
      · subst h
        have hne : k ≠ k2 := fun hc => h1 (hc.symm)
        simp [dictGet, hne]
      · simp [dictGet, h, ih]

theorem mem_dictInsert {α β : Type} [DecidableEq α] {d : List (α × β)} {k : α} {v : β}
    {kv : α × β} (h : kv ∈ dictInsert d k v) : kv ∈ d ∨ kv = (k, v) := by
  induction d with
  | nil => simp [dictInsert] at h; simp [h]
  | cons kv1 t ih =>
    obtain ⟨k1, v1⟩ := kv1
    by_cases h1 : k = k1
    · subst h1
      simp only [dictInsert, if_pos rfl] at h
      rcases List.mem_cons.mp h with h2 | h2
      · exact Or.inr h2
      · exact Or.inl (List.mem_cons_of_mem _ h2)
    · simp only [dictInsert, if_neg h1] at h
      rcases List.mem_cons.mp h with h2 | h2
      · exact Or.inl (by simp [h2])
      · rcases ih h2 with h3 | h3
        · exact Or.inl (List.mem_cons_of_mem _ h3)
        · exact Or.inr h3

theorem foldl_dictInsert_invariant {α β γ : Type} [DecidableEq α]
    (key : γ → α) (val : γ → β) (P : α × β → Prop) :
    ∀ (l : List γ) (d : List (α × β)), (∀ kv ∈ d, P kv) → (∀ c ∈ l, P (key c, val c)) →
      ∀ kv ∈ l.foldl (fun d2 c => dictInsert d2 (key c) (val c)) d, P kv := by
  intro l
  induction l with
  | nil => intro d hd _ kv hkv; exact hd kv hkv
  | cons c t ih =>
    intro d hd hl kv hkv
    rw [List.foldl_cons] at hkv
    refine ih (dictInsert d (key c) (val c)) ?_ (fun c2 hc2 => hl c2 (by simp [hc2])) kv hkv
    intro kv2 hkv2
    rcases mem_dictInsert hkv2 with h2 | h2
    · exact hd kv2 h2
    · rw [h2]; exact hl c (by simp)

theorem dictGet_foldl_insert {α β γ : Type} [DecidableEq α]
    (key : γ → α) (val : γ → β) (x : α) :
    ∀ (l : List γ) (d : List (α × β)),
      dictGet x (l.foldl (fun d2 c => dictInsert d2 (key c) (val c)) d) =
        match (l.filter (fun c => key c = x)).getLast? with
        | some c => some (val c)
        | none => dictGet x d := by
  intro l
  induction l with
  | nil => intro d; simp
  | cons c t ih =>
    intro d
    rw [List.foldl_cons, ih]
    by_cases hc : key c = x
    · rw [List.filter_cons_of_pos (by simpa using hc)]
      cases ht : t.filter (fun c2 => decide (key c2 = x)) with
      | nil =>
        simp only [ht, List.getLast?_nil, List.getLast?_singleton]
        rw [dictGet_dictInsert]
        rw [if_pos hc.symm]
      | cons c3 t3 =>
        simp only [ht, List.getLast?_cons_cons]
        cases hft : (c3 :: t3).getLast? with
        | some c2 => rfl
        | none =>
          rw [List.getLast?_eq_none_iff] at hft
          exact absurd hft (by simp)
    · rw [List.filter_cons_of_neg (by simpa using hc)]
      cases hft : (t.filter (fun c2 => decide (key c2 = x))).getLast? with
      | some c2 => rfl
      | none =>
        rw [dictGet_dictInsert]
        rw [if_neg (show ¬ x = key c from fun h => hc h.symm)]

theorem dictGet_foldl_multiInsert {α γ : Type} [DecidableEq α]
    (key : γ → α) (x : α) :
    ∀ (l : List γ) (g : List (α × List γ)),
      dictGet x (l.foldl (fun g2 c => multiInsert g2 (key c) c) g) =
        (if (l.filter (fun c => key c = x)).isEmpty then dictGet x g
         else some ((dictGet x g).getD [] ++ l.filter (fun c => key c = x))) := by
  intro l
  induction l with
  | nil => intro g; simp
  | cons c t ih =>
    intro g
    rw [List.foldl_cons, ih]
    by_cases hc : key c = x
    · rw [List.filter_cons_of_pos (by simpa using hc)]
      rw [dictGet_multiInsert, if_pos hc.symm]
      by_cases hte : (t.filter (fun c2 => decide (key c2 = x))).isEmpty = true
      · rw [if_pos hte, if_neg (by simp)]
        rw [List.isEmpty_iff] at hte
        rw [hte]
      · rw [if_neg hte, if_neg (by simp)]
        simp [List.append_assoc]
    · rw [List.filter_cons_of_neg (by simpa using hc)]
      rw [dictGet_multiInsert]
      rw [if_neg (show ¬ x = key c from fun h => hc h.symm)]

theorem map_fst_dictInsert {α β : Type} [DecidableEq α] (d : List (α × β)) (k : α) (v : β) :
    (dictInsert d k v).map Prod.fst =
      if k ∈ d.map Prod.fst then d.map Prod.fst else d.map Prod.fst ++ [k] := by
  induction d with
  | nil => simp [dictInsert]
  | cons kv t ih =>
    obtain ⟨k1, v1⟩ := kv
    by_cases h : k = k1
    · subst h; simp [dictInsert]
    · have hstep : dictInsert ((k1, v1) :: t) k v = (k1, v1) :: dictInsert t k v := by
        simp [dictInsert, h]
      rw [hstep]
      simp only [List.map_cons]
      rw [ih]
      by_cases h2 : k ∈ t.map Prod.fst
      · rw [if_pos h2, if_pos (by simp [h2])]
      · rw [if_neg h2, if_neg (by simp [h, h2])]
        simp

theorem map_fst_multiInsert {α β : Type} [DecidableEq α] (g : List (α × List β))
    (k : α) (v : β) :
    (multiInsert g k v).map Prod.fst =
      if k ∈ g.map Prod.fst then g.map Prod.fst else g.map Prod.fst ++ [k] := by
  induction g with
  | nil => simp [multiInsert]
  | cons kv t ih =>
    obtain ⟨k1, vs⟩ := kv
    by_cases h : k = k1
    · subst h; simp [multiInsert]
    · have hstep : multiInsert ((k1, vs) :: t) k v = (k1, vs) :: multiInsert t k v := by
        simp [multiInsert, h]
      rw [hstep]
      simp only [List.map_cons]
      rw [ih]
      by_cases h2 : k ∈ t.map Prod.fst
      · rw [if_pos h2, if_pos (by simp [h2])]
      · rw [if_neg h2, if_neg (by simp [h, h2])]
        simp

theorem nodup_keys_dictInsert {α β : Type} [DecidableEq α] {d : List (α × β)} (k : α) (v : β)
    (h : (d.map Prod.fst).Nodup) : ((dictInsert d k v).map Prod.fst).Nodup := by
  rw [map_fst_dictInsert]
  by_cases h2 : k ∈ d.map Prod.fst
  · rw [if_pos h2]; exact h
  · rw [if_neg h2]
    rw [List.nodup_append]
    refine ⟨h, List.nodup_singleton k, ?_⟩
    intro a ha hb
    simp at hb
    subst hb
    exact h2 ha

theorem nodup_keys_multiInsert {α β : Type} [DecidableEq α] {g : List (α × List β)}
    (k : α) (v : β) (h : (g.map Prod.fst).Nodup) :
    ((multiInsert g k v).map Prod.fst).Nodup := by
  rw [map_fst_multiInsert]
  by_cases h2 : k ∈ g.map Prod.fst
  · rw [if_pos h2]; exact h
  · rw [if_neg h2]
    rw [List.nodup_append]
    refine ⟨h, List.nodup_singleton k, ?_⟩
    intro a ha hb
    simp at hb
    subst hb
    exact h2 ha

theorem nodup_keys_foldl_insert {α β γ : Type} [DecidableEq α]
    (key : γ → α) (val : γ → β) :
    ∀ (l : List γ) (d : List (α × β)), (d.map Prod.fst).Nodup →
      ((l.foldl (fun d2 c => dictInsert d2 (key c) (val c)) d).map Prod.fst).Nodup := by
  intro l
  induction l with
  | nil => intro d hd; exact hd
  | cons c t ih =>
    intro d hd
    rw [List.foldl_cons]
    exact ih _ (nodup_keys_dictInsert _ _ hd)

theorem nodup_keys_foldl_multiInsert {α γ : Type} [DecidableEq α] (key : γ → α) :
    ∀ (l : List γ) (g : List (α × List γ)), (g.map Prod.fst).Nodup →
      ((l.foldl (fun g2 c => multiInsert g2 (key c) c) g).map Prod.fst).Nodup := by
  intro l
  induction l with
  | nil => intro g hg; exact hg
  | cons c t ih =>
    intro g hg
    rw [List.foldl_cons]
    exact ih _ (nodup_keys_multiInsert _ _ hg)

theorem filter_key_eq_nil {α β : Type} [DecidableEq α] (d : List (α × β)) (r : α)
    (h : r ∉ d.map Prod.fst) : d.filter (fun kv => kv.1 = r) = [] := by
  induction d with
  | nil => rfl
  | cons kv t ih =>
    have h1 : ¬ (kv.1 = r) := by
      intro hc
      exact h (by simp [← hc])
    rw [List.filter_cons_of_neg (by simpa using h1)]
    exact ih (fun hc => h (by simp at hc ⊢; exact Or.inr hc))

theorem filter_key_of_nodup {α β : Type} [DecidableEq α] :
    ∀ (d : List (α × β)), (d.map Prod.fst).Nodup → ∀ r : α,
      d.filter (fun kv => kv.1 = r) =
        match dictGet r d with
        | some v => [(r, v)]
        | none => [] := by
  intro d
  induction d with
  | nil => intro _ r; rfl
  | cons kv t ih =>
    intro hnd r
    obtain ⟨k1, v1⟩ := kv
    have hnd2 : (t.map Prod.fst).Nodup := by
      rw [List.map_cons, List.nodup_cons] at hnd
      exact hnd.2
    have hk1 : k1 ∉ t.map Prod.fst := by
      rw [List.map_cons, List.nodup_cons] at hnd
      exact hnd.1
    by_cases h : k1 = r
    · subst h
      rw [List.filter_cons_of_pos (by simp)]
      have hget : dictGet k1 ((k1, v1) :: t) = some v1 := by simp [dictGet]
      rw [hget, filter_key_eq_nil t k1 hk1]
    · rw [List.filter_cons_of_neg (by simpa using h)]
      have hget : dictGet r ((k1, v1) :: t) = dictGet r t := by
        have hne : ¬ (r = k1) := fun hc => h hc.symm
        simp [dictGet, hne]
      rw [hget]
      exact ih hnd2 r

theorem values_filter_at {α : Type} [DecidableEq α] (emb : α → ℚ)
    (hinj : ∀ a b : α, emb a = emb b → a = b) :
    ∀ (d : List (α × Keyframe)), (d.map Prod.fst).Nodup →
      (∀ kv ∈ d, (kv.2).x = emb kv.1) → ∀ r : α,
      (d.map Prod.snd).filter (fun v => v.x = emb r) = (dictGet r d).toList := by
  intro d
  induction d with
  | nil => intro _ _ r; rfl
  | cons kv t ih =>
    intro hnd hx r
    obtain ⟨k1, v1⟩ := kv
    have hnd2 : (t.map Prod.fst).Nodup := by
      rw [List.map_cons, List.nodup_cons] at hnd
      exact hnd.2
    have hk1 : k1 ∉ t.map Prod.fst := by
      rw [List.map_cons, List.nodup_cons] at hnd
      exact hnd.1
    have hx1 : v1.x = emb k1 := hx (k1, v1) (by simp)
    have hxt : ∀ kv2 ∈ t, (kv2.2).x = emb kv2.1 := fun kv2 h2 => hx kv2 (by simp [h2])
    by_cases h : k1 = r
    · subst h
      rw [List.map_cons, List.filter_cons_of_pos (by simp [hx1])]
      have hget : dictGet k1 ((k1, v1) :: t) = some v1 := by simp [dictGet]
      rw [hget]
      have hrest : (t.map Prod.snd).filter (fun v => v.x = emb k1) = [] := by
        rw [List.filter_eq_nil_iff]
        intro v hv
        rcases List.mem_map.mp hv with ⟨kv2, hkv2, hsnd⟩
        intro hvx
        have h2 : emb kv2.1 = emb k1 := by
          rw [← hxt kv2 hkv2, hsnd]
          simpa using hvx
        exact hk1 (by
          have h3 : kv2.1 = k1 := hinj _ _ h2
          rw [← h3]
          exact List.mem_map.mpr ⟨kv2, hkv2, rfl⟩)
      rw [hrest]
      rfl
    · rw [List.map_cons, List.filter_cons_of_neg (by
        have : ¬ (v1.x = emb r) := by
          rw [hx1]
          intro hc
          exact h (hinj _ _ hc)
        simpa using this)]
      have hget : dictGet r ((k1, v1) :: t) = dictGet r t := by
        have hne : ¬ (r = k1) := fun hc => h hc.symm
        simp [dictGet, hne]
      rw [hget]
      exact ih hnd2 hxt r

/-- The head of the stable sort by a rational measure: it is an element whose
measure is minimal, and every element preceding it in the original list has a
strictly larger measure (Python's stable `sort` + `[0]` picks the earliest
minimum). -/
theorem insertionSort_headD_first_min (f : Keyframe → ℚ) :
    ∀ l : List Keyframe, l ≠ [] →
      ∃ w l1 l2,
        (List.insertionSort (fun a b => f a ≤ f b) l).headD defaultKeyframe = w ∧
        l = l1 ++ w :: l2 ∧ (∀ k ∈ l1, f w < f k) ∧ (∀ k ∈ l, f w ≤ f k) := by
  intro l
  induction l with
  | nil => intro h; exact absurd rfl h
  | cons k t ih =>
    intro _
    cases t with
    | nil =>
      refine ⟨k, [], [], ?_, by simp, by simp, ?_⟩
      · simp [List.insertionSort]
      · intro k2 hk2
        simp at hk2
        rw [hk2]
    | cons k2 t2 =>
      rcases ih (by simp) with ⟨w2, l1, l2, hw2, hdec, hstrict, hmin⟩
      cases hs : List.insertionSort (fun a b => f a ≤ f b) (k2 :: t2) with
      | nil =>
        have hlen := (List.perm_insertionSort (fun a b => f a ≤ f b) (k2 :: t2)).length_eq
        rw [hs] at hlen
        simp at hlen
      | cons h1 rest =>
        rw [hs] at hw2
        simp only [List.headD_cons] at hw2
        subst hw2
        have hsort : List.insertionSort (fun a b => f a ≤ f b) (k :: k2 :: t2) =
            List.orderedInsert (fun a b => f a ≤ f b) k (h1 :: rest) := by
          have h0 : List.insertionSort (fun a b => f a ≤ f b) (k :: k2 :: t2) =
              List.orderedInsert (fun a b => f a ≤ f b) k
                (List.insertionSort (fun a b => f a ≤ f b) (k2 :: t2)) := rfl
          rw [h0, hs]
        by_cases hle : f k ≤ f h1
        · refine ⟨k, [], k2 :: t2, ?_, by simp, by simp, ?_⟩
          · rw [hsort, List.orderedInsert_of_le (fun a b => f a ≤ f b) rest hle]
            rfl
          · intro k3 hk3
            rcases List.mem_cons.mp hk3 with h3 | h3
            · rw [h3]
            · exact le_trans hle (hmin k3 h3)
        · refine ⟨h1, k :: l1, l2, ?_, ?_, ?_, ?_⟩
          · rw [hsort]
            have h4 : List.orderedInsert (fun a b => f a ≤ f b) k (h1 :: rest) =
                h1 :: List.orderedInsert (fun a b => f a ≤ f b) k rest := by
              have h5 : List.orderedInsert (fun a b => f a ≤ f b) k (h1 :: rest) =
                  if f k ≤ f h1 then k :: h1 :: rest
                  else h1 :: List.orderedInsert (fun a b => f a ≤ f b) k rest := rfl
              rw [h5, if_neg hle]
            rw [h4]
            rfl
          · rw [List.cons_append, hdec]
          · intro k3 hk3
            rcases List.mem_cons.mp hk3 with h3 | h3
            · rw [h3]; exact lt_of_not_le hle
            · exact hstrict k3 h3
          · intro k3 hk3
            rcases List.mem_cons.mp hk3 with h3 | h3
            · rw [h3]; exact le_of_lt (lt_of_not_le hle)
            · exact hmin k3 h3

/-- C9: with snapping disabled the quantizer emits only input samples — it
never alters any sample's time (or any other field) — and for each time value
the surviving sample is exactly the last-seen input sample with that mapped
time, so exact floating-point collisions collapse deterministically by input
order. -/
theorem C9_no_snap_identity_with_last_seen_collapse (samples : List Keyframe) :
    (∀ k ∈ quantizeKeys false samples, k ∈ samples)
    ∧ (∀ x : ℚ, (quantizeKeys false samples).filter (fun k => k.x = x) =
        ((samples.filter (fun k => k.x = x)).getLast?).toList) := by
  have hne : quantizeKeys false samples =
      (samples.foldl (fun d k => dictInsert d k.x k) []).map Prod.snd := rfl
  constructor
  · intro k hk
    rw [hne] at hk
    rcases List.mem_map.mp hk with ⟨kv, hkv, hsnd⟩
    have hinv : ∀ kv2 ∈ samples.foldl (fun d k2 => dictInsert d k2.x k2)
        ([] : List (ℚ × Keyframe)), kv2.2 ∈ samples :=
      foldl_dictInsert_invariant (fun k2 : Keyframe => k2.x) (fun k2 => k2)
        (fun kv2 => kv2.2 ∈ samples) samples []
        (by intro kv2 h2; simp at h2) (fun c hc => hc)
    rw [← hsnd]
    exact hinv kv hkv
  · intro x
    rw [hne]
    have hnd : ((samples.foldl (fun d k => dictInsert d k.x k)
        ([] : List (ℚ × Keyframe))).map Prod.fst).Nodup :=
      nodup_keys_foldl_insert (fun k : Keyframe => k.x) (fun k => k) samples [] (by simp)
    have hx : ∀ kv ∈ samples.foldl (fun d k => dictInsert d k.x k)
        ([] : List (ℚ × Keyframe)), (kv.2).x = kv.1 :=
      foldl_dictInsert_invariant (fun k2 : Keyframe => k2.x) (fun k2 => k2)
        (fun kv => kv.2.x = kv.1) samples []
        (by intro kv h2; simp at h2) (fun c _ => rfl)
    have h1 : ((samples.foldl (fun d k => dictInsert d k.x k)
          ([] : List (ℚ × Keyframe))).map Prod.snd).filter (fun v => v.x = x) =
        (dictGet x (samples.foldl (fun d k => dictInsert d k.x k)
          ([] : List (ℚ × Keyframe)))).toList :=
      values_filter_at (fun q : ℚ => q) (fun a b h => h) _ hnd hx x
    rw [h1]
    have h2 := dictGet_foldl_insert (fun k : Keyframe => k.x) (fun k => k) x samples
      ([] : List (ℚ × Keyframe))
    rw [h2]
    cases hft : (samples.filter (fun c => c.x = x)).getLast? with
    | some c => rfl
    | none => rfl

theorem C9_no_snap_identity_with_last_seen_collapse_witness :
    (quantizeKeys false
        [{ x := 1, y := 5, interpolation := "LINEAR", handle_left := (0, 0),
           handle_right := (0, 0), ktype := "KEYFRAME" },
         { x := 1, y := 6, interpolation := "BEZIER", handle_left := (1, 1),
           handle_right := (1, 1), ktype := "BREAKDOWN" }]).filter
      (fun k => k.x = 1) =
      [{ x := 1, y := 6, interpolation := "BEZIER", handle_left := (1, 1),
         handle_right := (1, 1), ktype := "BREAKDOWN" }] := by
  have h := (C9_no_snap_identity_with_last_seen_collapse
    [{ x := 1, y := 5, interpolation := "LINEAR", handle_left := (0, 0),
       handle_right := (0, 0), ktype := "KEYFRAME" },
     { x := 1, y := 6, interpolation := "BEZIER", handle_left := (1, 1),
       handle_right := (1, 1), ktype := "BREAKDOWN" }]).2 1
  rw [h]
  norm_num [List.filter]

/-- C3 (amended: the grouping rounds with Python's `round`, which is round
half to even, not round half away from zero): with snapping enabled the
quantizer groups samples by `pyRound(t')`; each occupied integer target emits
exactly one sample — the group member whose unrounded time is closest to the
target, ties resolved to the earliest in original order — with its time set
to the integer target and all other fields kept; unoccupied targets emit
nothing; and every emitted time is an integer. -/
theorem C3_snap_groups_by_round_and_keeps_closest (samples : List Keyframe) :
    (∀ r : ℤ, samples.filter (fun s => pyRound s.x = r) = [] →
        (quantizeKeys true samples).filter (fun k => k.x = (r : ℚ)) = [])
    ∧ (∀ r : ℤ, samples.filter (fun s => pyRound s.x = r) ≠ [] →
        ∃ w l1 l2, samples.filter (fun s => pyRound s.x = r) = l1 ++ w :: l2 ∧
          (∀ k ∈ l1, |w.x - (r : ℚ)| < |k.x - (r : ℚ)|) ∧
          (∀ k ∈ samples.filter (fun s => pyRound s.x = r),
            |w.x - (r : ℚ)| ≤ |k.x - (r : ℚ)|) ∧
          (quantizeKeys true samples).filter (fun k => k.x = (r : ℚ)) =
            [{ w with x := (r : ℚ) }])
    ∧ (∀ k ∈ quantizeKeys true samples, ∃ r : ℤ, k.x = (r : ℚ)) := by
  have hqf : quantizeKeys true samples =
      ((samples.foldl (fun g k => multiInsert g (pyRound k.x) k)
          ([] : List (ℤ × List Keyframe))).foldl
        (fun d rks => dictInsert d rks.1 (bestKey rks)) ([] : List (ℤ × Keyframe))).map
        Prod.snd := rfl
  have hgg : ∀ r : ℤ, dictGet r (samples.foldl (fun g k => multiInsert g (pyRound k.x) k)
        ([] : List (ℤ × List Keyframe))) =
      (if (samples.filter (fun s => pyRound s.x = r)).isEmpty then none
       else some (samples.filter (fun s => pyRound s.x = r))) := by
    intro r
    have h0 : dictGet r (samples.foldl (fun g k => multiInsert g (pyRound k.x) k)
          ([] : List (ℤ × List Keyframe))) =
        (if (samples.filter (fun s => pyRound s.x = r)).isEmpty
         then dictGet r ([] : List (ℤ × List Keyframe))
         else some ((dictGet r ([] : List (ℤ × List Keyframe))).getD [] ++
            samples.filter (fun s => pyRound s.x = r))) :=
      dictGet_foldl_multiInsert (fun k : Keyframe => pyRound k.x) r samples []
    rw [h0]
    by_cases he : (samples.filter (fun s => decide (pyRound s.x = r))).isEmpty = true
    · rw [if_pos he, if_pos he]
      rfl
    · rw [if_neg he, if_neg he]
      simp [dictGet]
  have hndg : ((samples.foldl (fun g k => multiInsert g (pyRound k.x) k)
      ([] : List (ℤ × List Keyframe))).map Prod.fst).Nodup :=
    nodup_keys_foldl_multiInsert (fun k : Keyframe => pyRound k.x) samples [] (by simp)
  have hndf : (((samples.foldl (fun g k => multiInsert g (pyRound k.x) k)
        ([] : List (ℤ × List Keyframe))).foldl
      (fun d rks => dictInsert d rks.1 (bestKey rks))
        ([] : List (ℤ × Keyframe))).map Prod.fst).Nodup :=
    nodup_keys_foldl_insert Prod.fst bestKey _ [] (by simp)
  have hgf : ∀ r : ℤ, dictGet r ((samples.foldl (fun g k => multiInsert g (pyRound k.x) k)
          ([] : List (ℤ × List Keyframe))).foldl
        (fun d rks => dictInsert d rks.1 (bestKey rks)) ([] : List (ℤ × Keyframe))) =
      (match dictGet r (samples.foldl (fun g k => multiInsert g (pyRound k.x) k)
          ([] : List (ℤ × List Keyframe))) with
        | some g => some (bestKey (r, g))
        | none => none) := by
    intro r
    have h0 := dictGet_foldl_insert Prod.fst bestKey r
      (samples.foldl (fun g k => multiInsert g (pyRound k.x) k)
        ([] : List (ℤ × List Keyframe))) ([] : List (ℤ × Keyframe))
    rw [h0, filter_key_of_nodup _ hndg r]
    cases hdg : dictGet r (samples.foldl (fun g k => multiInsert g (pyRound k.x) k)
        ([] : List (ℤ × List Keyframe))) with
    | some g => rfl
    | none => rfl
  have hxf : ∀ kv ∈ (samples.foldl (fun g k => multiInsert g (pyRound k.x) k)
        ([] : List (ℤ × List Keyframe))).foldl
      (fun d rks => dictInsert d rks.1 (bestKey rks)) ([] : List (ℤ × Keyframe)),
      (kv.2).x = (kv.1 : ℚ) :=
    foldl_dictInsert_invariant Prod.fst bestKey (fun kv => kv.2.x = (kv.1 : ℚ)) _ []
      (by intro kv h2; simp at h2) (fun c _ => rfl)
  have hvf : ∀ r : ℤ, (((samples.foldl (fun g k => multiInsert g (pyRound k.x) k)
          ([] : List (ℤ × List Keyframe))).foldl
        (fun d rks => dictInsert d rks.1 (bestKey rks))
          ([] : List (ℤ × Keyframe))).map Prod.snd).filter (fun v => v.x = (r : ℚ)) =
      (dictGet r ((samples.foldl (fun g k => multiInsert g (pyRound k.x) k)
          ([] : List (ℤ × List Keyframe))).foldl
        (fun d rks => dictInsert d rks.1 (bestKey rks))
          ([] : List (ℤ × Keyframe)))).toList :=
    fun r => values_filter_at (fun z : ℤ => (z : ℚ))
      (fun a b h => Int.cast_injective (show ((a : ℚ)) = (b : ℚ) from h)) _ hndf hxf r
  refine ⟨?_, ?_, ?_⟩
  · intro r hempty
    rw [hqf, hvf r, hgf r, hgg r, if_pos (by simp [hempty])]
    rfl
  · intro r hne2
    have hg2 : dictGet r (samples.foldl (fun g k => multiInsert g (pyRound k.x) k)
          ([] : List (ℤ × List Keyframe))) =
        some (samples.filter (fun s => pyRound s.x = r)) := by
      rw [hgg r, if_neg (by simpa [List.isEmpty_iff] using hne2)]
    rcases insertionSort_headD_first_min (fun k => |k.x - (r : ℚ)|)
      (samples.filter (fun s => pyRound s.x = r)) hne2 with
      ⟨w, l1, l2, hw, hdec, hstrict, hmin⟩
    refine ⟨w, l1, l2, hdec, hstrict, hmin, ?_⟩
    rw [hqf, hvf r, hgf r, hg2]
    show (some (bestKey (r, samples.filter (fun s => pyRound s.x = r)))).toList =
      [{ w with x := (r : ℚ) }]
    have hbk : bestKey (r, samples.filter (fun s => pyRound s.x = r)) =
        { w with x := (r : ℚ) } := by
      have hw2 : (List.insertionSort (fun a b => |a.x - (r : ℚ)| ≤ |b.x - (r : ℚ)|)
          (samples.filter (fun s => pyRound s.x = r))).headD defaultKeyframe = w := hw
      rw [← hw2]
      rfl
    rw [hbk]
    rfl
  · intro k hk
    rw [hqf] at hk
    rcases List.mem_map.mp hk with ⟨kv, hkv, hsnd⟩
    exact ⟨kv.1, by rw [← hsnd]; exact hxf kv hkv⟩

theorem C3_snap_groups_by_round_and_keeps_closest_witness :
    (quantizeKeys true
        [{ x := 123 / 5, y := 1, interpolation := "LINEAR", handle_left := (1, 1),
           handle_right := (1, 2), ktype := "KEYFRAME" },
         { x := 253 / 10, y := 2, interpolation := "BEZIER", handle_left := (2, 1),
           handle_right := (2, 2), ktype := "BREAKDOWN" }]).filter
      (fun k => k.x = ((7 : ℤ) : ℚ)) = [] := by
  apply (C3_snap_groups_by_round_and_keeps_closest _).1 7
  norm_num [List.filter, pyRound]

/-- The rounding mode the spec claims, written from its words: round half
away from zero. -/
def roundHalfAwayFromZero (q : ℚ) : ℤ :=
  if 0 ≤ q then ⌊q + 1 / 2⌋ else ⌈q - 1 / 2⌉

/-- C3 counterexample: one sample with mapped time 2.5.  Round half away from
zero targets 3, but the code rounds with Python's `round` (half to even) and
groups it at 2: the emitted key sits at time 2 and none sits at 3, so the
claimed grouping rule is false on the code. -/
theorem C3_round_half_away_counterexample :
    roundHalfAwayFromZero (5 / 2) = 3 ∧ pyRound (5 / 2) = 2 ∧
    quantizeKeys true [{ x := 5 / 2, y := 7, interpolation := "LINEAR",
                         handle_left := (1, 1), handle_right := (2, 2),
                         ktype := "KEYFRAME" }] =
      [{ x := 2, y := 7, interpolation := "LINEAR",
          handle_left := (1, 1), handle_right := (2, 2), ktype := "KEYFRAME" }] ∧
    ((2 : ℚ) ≠ (3 : ℚ)) := by
  refine ⟨by norm_num [roundHalfAwayFromZero], by norm_num [pyRound, Int.fract], ?_, by norm_num⟩
  have hr : pyRound (5 / 2 : ℚ) = 2 := by norm_num [pyRound, Int.fract]
  simp only [quantizeKeys, List.foldl_cons, List.foldl_nil, hr, multiInsert]
  norm_num [bestKey, dictInsert, defaultKeyframe, List.insertionSort,
    List.orderedInsert]

/-- The deterministic-collision example of the spec: unrounded 24.6 and 25.3
both round to 25; 25.3 is closer (0.3 < 0.4) and wins; the single emitted key
at 25 carries 25.3's fields. -/
theorem C3_collision_example :
    quantizeKeys true
        [{ x := 123 / 5, y := 1, interpolation := "LINEAR", handle_left := (1, 1),
           handle_right := (1, 2), ktype := "KEYFRAME" },
         { x := 253 / 10, y := 2, interpolation := "BEZIER", handle_left := (2, 1),
           handle_right := (2, 2), ktype := "BREAKDOWN" }] =
      [{ x := 25, y := 2, interpolation := "BEZIER", handle_left := (2, 1),
         handle_right := (2, 2), ktype := "BREAKDOWN" }] := by
  have hr1 : pyRound (123 / 5 : ℚ) = 25 := by norm_num [pyRound]
  have hr2 : pyRound (253 / 10 : ℚ) = 25 := by norm_num [pyRound]
  simp only [quantizeKeys, List.foldl_cons, List.foldl_nil, hr1, hr2, multiInsert]
  norm_num [bestKey, dictInsert, defaultKeyframe, List.insertionSort,
    List.orderedInsert, abs]

/-- One animation F-Curve: addressed by the stable key
`(fcurve.data_path, fcurve.array_index)`, holding its live keyframe list. -/
structure FCurve where
  data_path : String
  array_index : ℕ
  keyframe_points : List Keyframe
deriving DecidableEq

/-- A Blender object as the retimer sees it: name, selection state, and
`animation_data.action.fcurves` when animation data and an action are
present (`none` models `not obj.animation_data or not
obj.animation_data.action`). -/
structure Obj where
  name : String
  selected : Bool
  anim : Option (List FCurve)
deriving DecidableEq

/-- A timeline marker. -/
structure Marker where
  name : String
  frame : ℚ
deriving DecidableEq

/-- The module-level `retimer_data` dict (src 22-30).  A popped key is
modelled by the empty value; `original_start`/`original_end` are written at
session start and never popped by apply/cancel, exactly as in the code. -/
structure RetimerData where
  original_markers : List (String × ℚ)
  original_start : ℚ
  original_end : ℚ
  original_segments : List (ℚ × ℚ)
  objects_processed : List String
  objects_temp_keyframe_data : List (String × List ((String × ℕ) × List Keyframe))
deriving DecidableEq

def RetimerData.empty : RetimerData :=
  { original_markers := [], original_start := 0, original_end := 0,
    original_segments := [], objects_processed := [],
    objects_temp_keyframe_data := [] }

/-- The world the operators act on: the scene's timeline markers, the
objects, `retimer_data`, the window-manager flags `retimer_active` and
`retimer_snap_frames`, and the modal operator's `_last_marker_positions`. -/
structure State where
  markers : List Marker
  objects : List Obj
  retimer : RetimerData
  retimer_active : Bool
  snap : Bool
  last_marker_positions : List (String × ℚ)
deriving DecidableEq

/-- Operator outcomes.  The three error variants stand for the `CANCELLED`
returns that report, in order, "Add at least 2 'RT_' prefixed markers
first!" (InsufficientBreakpoints), "No selected objects with animation data
found!" (NoAnimatedObjects) and "Could not store keyframe data for any
selected object." (NoKeyframeData); `cancelledNoData` is cancel's "No
retiming data found" warning return. -/
inductive ExecResult where
  | errInsufficientMarkers : ExecResult
  | errNoAnimatedObjects : ExecResult
  | errNoKeyframeData : ExecResult
  | runningModal : ExecResult
  | finished : ExecResult
  | cancelledNoData : ExecResult
deriving DecidableEq

/-- Python's `name.startswith(p)`. -/
def strStartsWith (p s : String) : Bool := p.data.isPrefixOf s.data

/-- `get_ordered_markers` (src 33-41): the `RT_`-prefixed markers sorted by
frame (Python's sort is stable). -/
def get_ordered_markers (markers : List Marker) : List Marker :=
  List.insertionSort (fun a b => a.frame ≤ b.frame)
    (markers.filter (fun m => strStartsWith "RT_" m.name))

/-- `{m.name: m.frame for m in markers}`. -/
def markersDict (ms : List Marker) : List (String × ℚ) :=
  ms.foldl (fun d m => dictInsert d m.name m.frame) []

/-- Python dict equality: same size and every binding present in the other
(insertion order irrelevant); exact for the unique-keyed dicts compared by
`process_retiming`. -/
def dictEqB {α β : Type} [DecidableEq α] [DecidableEq β]
    (a b : List (α × β)) : Bool :=
  decide (a.length = b.length) &&
    a.all (fun kv => decide (dictGet kv.1 b = some kv.2))

/-- Whether `store_initial_keyframe_data_for_object` succeeds (src 117-119):
it fails exactly when the object lacks animation data or an action. -/
def storeSucceeds (o : Obj) : Bool := o.anim.isSome

/-- `(fcurve.data_path, fcurve.array_index)`. -/
def curveKey (c : FCurve) : String × ℕ := (c.data_path, c.array_index)

/-- The capture built by `store_initial_keyframe_data_for_object`
(src 121-140): per curve key, the full keyframe tuple list; a later curve
with a duplicate key overwrites the earlier one, as the Python dict does. -/
def captureObject (o : Obj) : List ((String × ℕ) × List Keyframe) :=
  (o.anim.getD []).foldl
    (fun d c => dictInsert d (curveKey c) c.keyframe_points) []

/-- The mutations of the successful start branch of
`ANIMATION_RETIMER_OT_RetimeMarker.execute` (src 417-447): capture marker
positions and segments, capture keyframes per selected animated object,
record the processed objects, remember the current marker positions, and
activate. -/
def beginState (s : State) : State :=
  let ms := get_ordered_markers s.markers
  let selected := s.objects.filter (fun o => o.selected && o.anim.isSome)
  { s with
    retimer :=
      { original_markers := markersDict ms
        original_start := (ms.headD ⟨"", 0⟩).frame
        original_end := (ms.getLastD ⟨"", 0⟩).frame
        original_segments := (ms.zip ms.tail).map (fun p => (p.1.frame, p.2.frame))
        objects_processed := (selected.filter storeSucceeds).map (fun o => o.name)
        objects_temp_keyframe_data :=
          selected.foldl (fun d o =>
            if storeSucceeds o then dictInsert d o.name (captureObject o) else d) [] }
    retimer_active := true
    last_marker_positions := markersDict ms }

/-- `ANIMATION_RETIMER_OT_ApplyRetiming.execute` (src 480-493): stop the
modal loop and pop the four session keys; live keyframes and markers are
left as they are. -/
def applyRetiming (s : State) : ExecResult × State :=
  (ExecResult.finished,
    { s with
      retimer_active := false
      retimer := { s.retimer with
        objects_temp_keyframe_data := []
        objects_processed := []
        original_markers := []
        original_segments := [] } })

/-- `ANIMATION_RETIMER_OT_RetimeMarker.execute` (src 396-455).  When no
session is active this is the spec's `begin()`: the marker-count guard, the
animated-object guard, the per-object capture with the zero-success
`retimer_data.clear()` failure, or activation.  When a session is active the
operator does not begin: it invokes `apply_retiming` (the toggle branch,
src 451-455). -/
def retimeExecute (s : State) : ExecResult × State :=
  if s.retimer_active = false then
    if (get_ordered_markers s.markers).length < 2 then
      (ExecResult.errInsufficientMarkers, s)
    else
      let selected := s.objects.filter (fun o => o.selected && o.anim.isSome)
      if selected.isEmpty then (ExecResult.errNoAnimatedObjects, s)
      else
        if (selected.filter storeSucceeds).length = 0 then
          (ExecResult.errNoKeyframeData, { s with retimer := RetimerData.empty })
        else (ExecResult.runningModal, beginState s)
  else
    applyRetiming s

/-- The spec's `begin()` (§4.3), written from its words: fewer than 2
breakpoints fails with InsufficientBreakpoints leaving the prior state
untouched; no tracked object exposing curves fails with NoAnimatedObjects
leaving the prior state untouched; every per-object capture failing fails
with NoKeyframeData with no session state retained; otherwise the session
captures and becomes Active. -/
def beginSpec (s : State) : ExecResult × State :=
  let breakpoints := get_ordered_markers s.markers
  if breakpoints.length < 2 then (ExecResult.errInsufficientMarkers, s)
  else
    let animated := s.objects.filter (fun o => o.selected && o.anim.isSome)
    if animated = [] then (ExecResult.errNoAnimatedObjects, s)
    else if animated.all (fun o => !(storeSucceeds o)) then
      (ExecResult.errNoKeyframeData, { s with retimer := RetimerData.empty })
    else (ExecResult.runningModal, beginState s)

/-- C7: in the Idle state (`retimer_active = false`), `execute` refines the
spec's `begin()` exactly: InsufficientBreakpoints when fewer than 2
breakpoints, NoAnimatedObjects when no selected object exposes animation
curves, NoKeyframeData (with all session state cleared) when every
per-object capture fails, and each failure leaves the prior Idle state
untouched, with no session activated. -/
theorem C7_begin_failure_modes (s : State) (h : s.retimer_active = false) :
    retimeExecute s = beginSpec s := by
  unfold retimeExecute beginSpec
  rw [if_pos h]
  by_cases h1 : (get_ordered_markers s.markers).length < 2
  · rw [if_pos h1, if_pos h1]
  · rw [if_neg h1, if_neg h1]
    by_cases h2 : (s.objects.filter (fun o => o.selected && o.anim.isSome)).isEmpty = true
    · rw [if_pos h2, if_pos (List.isEmpty_iff.mp h2)]
    · rw [if_neg h2, if_neg (fun hc => h2 (List.isEmpty_iff.mpr hc))]
      have hequiv :
          (((s.objects.filter (fun o => o.selected && o.anim.isSome)).filter
              storeSucceeds).length = 0) ↔
            ((s.objects.filter (fun o => o.selected && o.anim.isSome)).all
              (fun o => !(storeSucceeds o)) = true) := by
        rw [List.length_eq_zero, List.filter_eq_nil_iff, List.all_eq_true]
        constructor
        · intro hall o ho
          have := hall o ho
          simp at this ⊢
          exact this
        · intro hall o ho
          have := hall o ho
          simp at this ⊢
          exact this
      by_cases h3 : ((s.objects.filter (fun o => o.selected && o.anim.isSome)).filter
          storeSucceeds).length = 0
      · rw [if_pos h3, if_pos (hequiv.mp h3)]
      · rw [if_neg h3, if_neg (fun hc => h3 (hequiv.mpr hc))]

def sampleIdleState : State :=
  { markers := [{ name := "RT_0", frame := 0 }],
    objects := [],
    retimer := RetimerData.empty,
    retimer_active := false,
    snap := true,
    last_marker_positions := [] }

theorem C7_begin_failure_modes_witness :
    retimeExecute sampleIdleState = beginSpec sampleIdleState ∧
    retimeExecute sampleIdleState = (ExecResult.errInsufficientMarkers, sampleIdleState) := by
  refine ⟨C7_begin_failure_modes sampleIdleState rfl, ?_⟩
  norm_num [retimeExecute, sampleIdleState, get_ordered_markers, strStartsWith,
    List.insertionSort, List.orderedInsert, RetimerData.empty]

def sampleKey : Keyframe :=
  { x := 0, y := 1, interpolation := "LINEAR", handle_left := (0, 0),
    handle_right := (0, 0), ktype := "KEYFRAME" }

def sampleActiveState : State :=
  { markers := [{ name := "RT_0", frame := 0 }, { name := "RT_50", frame := 80 }],
    objects := [{ name := "Cube", selected := true,
                  anim := some [{ data_path := "location", array_index := 0,
                                  keyframe_points := [sampleKey] }] }],
    retimer := { original_markers := [("RT_0", 0), ("RT_50", 50)],
                 original_start := 0, original_end := 50,
                 original_segments := [(0, 50)],
                 objects_processed := ["Cube"],
                 objects_temp_keyframe_data :=
                   [("Cube", [(("location", 0), [sampleKey])])] },
    retimer_active := true,
    snap := true,
    last_marker_positions := [("RT_0", 0), ("RT_50", 80)] }

/-- C4 counterexample: with a session already active, `execute` neither
fails with a session-already-active error nor leaves the active session
unchanged — it returns FINISHED and the session is committed: deactivated,
with its captured snapshots and processed-object list cleared. -/
theorem C4_counterexample :
    (retimeExecute sampleActiveState).1 = ExecResult.finished ∧
    (retimeExecute sampleActiveState).2.retimer_active = false ∧
    (retimeExecute sampleActiveState).2.retimer.objects_processed = [] ∧
    (retimeExecute sampleActiveState).2.retimer.objects_temp_keyframe_data = [] ∧
    sampleActiveState.retimer.objects_processed = ["Cube"] ∧
    sampleActiveState.retimer_active = true := by
  refine ⟨?_, ?_, ?_, ?_, rfl, rfl⟩ <;>
    norm_num [retimeExecute, applyRetiming, sampleActiveState]

/-- C4 (amended): whenever a session is already Active, calling the start
operator does not fail and does not begin a new session: it applies
(commits) the current retiming — deactivating the session and clearing the
snapshots, processed-object list, captured markers and captured segments —
returning FINISHED, while markers, objects (live keyframes) and
configuration are left untouched. -/
theorem C4_execute_while_active_commits (s : State) (h : s.retimer_active = true) :
    retimeExecute s = (ExecResult.finished,
      { s with
        retimer_active := false
        retimer := { s.retimer with
          objects_temp_keyframe_data := []
          objects_processed := []
          original_markers := []
          original_segments := [] } }) ∧
    (retimeExecute s).2.markers = s.markers ∧
    (retimeExecute s).2.objects = s.objects := by
  have hcond : ¬ (s.retimer_active = false) := by rw [h]; simp
  have h0 : retimeExecute s = applyRetiming s := by
    unfold retimeExecute
    rw [if_neg hcond]
  rw [h0]
  unfold applyRetiming
  exact ⟨rfl, rfl, rfl⟩

theorem C4_execute_while_active_commits_witness :
    (retimeExecute sampleActiveState).2.markers = sampleActiveState.markers ∧
    (retimeExecute sampleActiveState).2.objects = sampleActiveState.objects ∧
    (retimeExecute sampleActiveState).1 = ExecResult.finished := by
  have h := C4_execute_while_active_commits sampleActiveState rfl
  refine ⟨h.2.1, h.2.2, ?_⟩
  rw [h.1]

/-- Blender's `fcurve.keyframe_points.insert(x, y)` followed by setting
interpolation, handles and type: the point is placed in time order; a point
at exactly the same time is replaced.  (Every list this program inserts has
distinct times, so the replace branch is never taken.) -/
def insertKey : List Keyframe → Keyframe → List Keyframe
  | [], k => [k]
  | k1 :: rest, k =>
    if k.x = k1.x then k :: rest
    else if k.x < k1.x then k :: k1 :: rest
    else k1 :: insertKey rest k

/-- The full per-curve recompute of `process_retiming` (src 264-346) for a
tracked curve with a nonempty captured list: map every captured sample
through the segment mapper, quantize/merge, sort the surviving keys by time
and insert them one by one into the cleared curve. -/
def retimeCurveKeys (os cs : List (ℚ × ℚ)) (snap : Bool)
    (orig : List Keyframe) : List Keyframe :=
  let calculated := orig.map (fun k => { k with x := mapTime k.x os cs })
  (List.insertionSort (fun a b => a.x ≤ b.x) (quantizeKeys snap calculated)).foldl
    insertKey []

/-- The per-curve body of the object loop (src 249-346): untracked curves are
untouched; a tracked curve with an empty captured list is cleared; otherwise
it is rewritten from its captured samples. -/
def retimeObj (os cs : List (ℚ × ℚ)) (snap : Bool)
    (stored : List ((String × ℕ) × List Keyframe)) (o : Obj) : Obj :=
  { o with anim := o.anim.map (fun curves => curves.map (fun c =>
      match dictGet (curveKey c) stored with
      | none => c
      | some orig =>
        { c with keyframe_points :=
            if orig.isEmpty then []
            else retimeCurveKeys os cs snap orig })) }

/-- Segment reconstruction (src 215-229): walk consecutive pairs of marker
names sorted by captured original position; skip a pair when either name is
missing from the live positions (marker deleted mid-session); otherwise read
the original pair from the captured dict and the current pair from the live
positions.  Both lists are built in lockstep. -/
def buildSegments (om cur : List (String × ℚ)) :
    List String → List (ℚ × ℚ) × List (ℚ × ℚ)
  | n1 :: n2 :: rest =>
    let tail := buildSegments om cur (n2 :: rest)
    match dictGet n1 cur, dictGet n2 cur with
    | some c1, some c2 =>
      match dictGet n1 om, dictGet n2 om with
      | some o1, some o2 => ((o1, o2) :: tail.1, (c1, c2) :: tail.2)
      | _, _ => tail
    | _, _ => tail
  | _ => ([], [])

/-- The names of the still-present captured markers (src 212-215), in marker
order; with unique marker names this is exactly
`valid_current_markers.keys()`. -/
def validNamesOf (om cur : List (String × ℚ)) : List String :=
  (cur.map Prod.fst).filter (fun n => (dictGet n om).isSome)

/-- The original/current segment lists `process_retiming` rebuilds from the
state (src 208-229). -/
def currentSegmentsOf (s : State) : List (ℚ × ℚ) × List (ℚ × ℚ) :=
  let cur := markersDict (get_ordered_markers s.markers)
  let om := s.retimer.original_markers
  buildSegments om cur
    (List.insertionSort (fun a b => (dictGet a om).getD 0 ≤ (dictGet b om).getD 0)
      (validNamesOf om cur))

/-- The guards of the object loop (src 239-244): skip the object when it
has no animation data/action or no captured entry; otherwise retime it. -/
def tickObjectUpdate (os cs : List (ℚ × ℚ)) (snap : Bool)
    (temp : List (String × List ((String × ℕ) × List Keyframe)))
    (n : String) (o : Obj) : Obj :=
  match o.anim, dictGet n temp with
  | some _, some stored => retimeObj os cs snap stored o
  | _, _ => o

/-- The object-loop body (src 237-346) for one processed object name: the
object is skipped when missing, without animation data/action, or without a
captured entry; otherwise each of its tracked curves is rewritten. -/
def processObjectNamed (os cs : List (ℚ × ℚ)) (snap : Bool)
    (temp : List (String × List ((String × ℕ) × List Keyframe)))
    (objs : List Obj) (n : String) : List Obj :=
  objs.map (fun o => if o.name = n then tickObjectUpdate os cs snap temp n o else o)

/-- The object-loop of `process_retiming` (src 231-348) applied to all
processed objects. -/
def recomputeObjects (s : State) : List Obj :=
  s.retimer.objects_processed.foldl
    (fun objs n =>
      processObjectNamed (currentSegmentsOf s).1 (currentSegmentsOf s).2
        s.snap s.retimer.objects_temp_keyframe_data objs n) s.objects

/-- `process_retiming` (src 191-357): return unchanged when fewer than 2
ordered markers, or when the polled positions equal `_last_marker_positions`;
otherwise record the new positions, return when no captured original markers
exist or fewer than 2 captured markers are still present or no objects were
processed; otherwise rebuild the segment lists and rewrite every tracked
curve of every processed object from its captured samples. -/
def processRetiming (s : State) : State :=
  if (get_ordered_markers s.markers).length < 2 then s
  else if dictEqB (markersDict (get_ordered_markers s.markers))
      s.last_marker_positions then s
  else if s.retimer.original_markers.isEmpty then
    { s with last_marker_positions := markersDict (get_ordered_markers s.markers) }
  else if (validNamesOf s.retimer.original_markers
      (markersDict (get_ordered_markers s.markers))).length < 2 then
    { s with last_marker_positions := markersDict (get_ordered_markers s.markers) }
  else if s.retimer.objects_processed.isEmpty then
    { s with last_marker_positions := markersDict (get_ordered_markers s.markers) }
  else
    { s with
      last_marker_positions := markersDict (get_ordered_markers s.markers)
      objects := recomputeObjects s }

/-- The per-curve body of `restore_from_original_for_object` (src 155-189):
a curve whose key was captured is cleared and refilled with its captured
keyframes sorted by time; a curve with no captured entry is untouched; an
empty captured list leaves the curve cleared (the code's early `continue`
after clearing). -/
def restoreCurve (stored : List ((String × ℕ) × List Keyframe)) (c : FCurve) : FCurve :=
  match dictGet (curveKey c) stored with
  | none => c
  | some orig =>
    { c with keyframe_points :=
        if orig.isEmpty then []
        else (List.insertionSort (fun a b => a.x ≤ b.x) orig).foldl insertKey [] }

/-- `restore_from_original_for_object` (src 142-189), reached with an object
that exists, has animation data and has a captured entry: every curve is
restored from the capture by `restoreCurve`. -/
def restoreObject (stored : List ((String × ℕ) × List Keyframe)) (o : Obj) : Obj :=
  { o with anim := o.anim.map (fun curves => curves.map (restoreCurve stored)) }

/-- The guards of `restore_from_original_for_object` (src 145-151): skip an
object with no animation data/action or no captured entry. -/
def cancelObjectUpdate
    (temp : List (String × List ((String × ℕ) × List Keyframe)))
    (n : String) (o : Obj) : Obj :=
  match o.anim, dictGet n temp with
  | some _, some stored => restoreObject stored o
  | _, _ => o

/-- The keyframe-restore phase of cancel (src 520-536): when captured
snapshot data exists, restore every processed object that is still present
and has animation data and a captured entry. -/
def cancelRestorePhase (s : State) : State :=
  if s.retimer.objects_temp_keyframe_data.isEmpty then s
  else
    { s with
      objects :=
        s.retimer.objects_processed.foldl
          (fun objs n =>
            objs.map (fun o =>
              if o.name = n then
                cancelObjectUpdate s.retimer.objects_temp_keyframe_data n o
              else o)) s.objects }

/-- The marker-restore phase of cancel (src 539-562): set every still-present
captured marker back to its captured original frame, then remove every
`RT_`-prefixed marker whose name was not restored (i.e. with no captured
counterpart).  The name-indexed update `current_markers[name].frame = ...`
is modelled by a map over the list, exact for unique marker names (which
Blender's AddMarker guarantees by disambiguation). -/
def cancelMarkerPhase (s : State) : State :=
  if s.retimer.original_markers.isEmpty then s
  else if s.markers.isEmpty then s
  else
    { s with
      markers :=
        (s.retimer.original_markers.foldl
          (fun ms nf =>
            ms.map (fun m => if m.name = nf.1 then { m with frame := nf.2 } else m))
          s.markers).filter (fun m =>
            !(strStartsWith "RT_" m.name &&
              !(((s.retimer.original_markers.filter (fun nf =>
                  s.markers.any (fun m2 => m2.name = nf.1))).map
                Prod.fst).contains m.name))) }

/-- The final cleanup of cancel (src 565-569): pop the four session keys. -/
def clearSessionKeys (s : State) : State :=
  { s with retimer := { s.retimer with
      objects_temp_keyframe_data := []
      objects_processed := []
      original_markers := []
      original_segments := [] } }

/-- `ANIMATION_RETIMER_OT_CancelRetiming.execute` (src 495-573): warn and
deactivate when no session data exists at all; otherwise deactivate, restore
every processed object's curves from the captured snapshots, restore the
markers, and clear the session keys. -/
def cancelRetiming (s : State) : ExecResult × State :=
  if s.retimer.objects_processed.isEmpty &&
      s.retimer.original_markers.isEmpty &&
      s.retimer.objects_temp_keyframe_data.isEmpty then
    (ExecResult.cancelledNoData, { s with retimer_active := false })
  else
    (ExecResult.finished,
      clearSessionKeys (cancelMarkerPhase (cancelRestorePhase
        { s with retimer_active := false })))

/-- Events during an Active session: a driver tick, a user edit of the
timeline markers (move/create/delete), or a host-side rewrite of one curve's
live keyframes. -/
inductive Step where
  | tick : Step
  | setMarkers : List Marker → Step
  | setCurveKeys : String → (String × ℕ) → List Keyframe → Step

def runStep (s : State) : Step → State
  | Step.tick => processRetiming s
  | Step.setMarkers ms => { s with markers := ms }
  | Step.setCurveKeys n k ks =>
    { s with objects := s.objects.map (fun o =>
        if o.name = n then
          { o with anim := o.anim.map (fun curves => curves.map (fun c =>
              if curveKey c = k then { c with keyframe_points := ks } else c)) }
        else o) }

def runSteps (s : State) (steps : List Step) : State := steps.foldl runStep s

/-- `bpy.data.objects.get(name)` (exact for unique object names, which
Blender guarantees). -/
def findObj (objs : List Obj) (n : String) : Option Obj :=
  objs.find? (fun o => o.name = n)

/-- The part of an object the retimer never rewrites: name, selection, and
the set of curve addresses. -/
def objShape (o : Obj) : String × Bool × Option (List (String × ℕ)) :=
  (o.name, o.selected, o.anim.map (fun curves => curves.map curveKey))

/-- An object's name together with its full animation data (curve keys and
keyframe lists): the data `cancel()` must restore. -/
def objData (o : Obj) : String × Option (List ((String × ℕ) × List Keyframe)) :=
  (o.name, o.anim.map (fun curves => curves.map (fun c => (curveKey c, c.keyframe_points))))

/-- The clear loop of a curve replacement (src 318-323 and 163-169): points
are removed from the front one at a time inside a single `try`;
`failClear j` models a host `ReferenceError` at removal step `j`, which is
caught, leaving the curve partially cleared and skipping the rebuild. -/
def clearKeys (failClear : ℕ → Bool) : List Keyframe → ℕ → List Keyframe × Bool
  | [], _ => ([], true)
  | k :: rest, j =>
    if failClear j then (k :: rest, false) else clearKeys failClear rest (j + 1)

/-- The insert loop of a curve replacement (src 336-344 and 178-187): each
key is inserted inside its own `try`; a failure at index `i` skips exactly
that key and the loop continues. -/
def insertLoopF (failInsert : ℕ → Bool) (newKeys : List Keyframe) : List Keyframe :=
  newKeys.enum.foldl (fun acc ik =>
    if failInsert ik.1 then acc else insertKey acc ik.2) []

/-- One curve's keyframe replacement as the code performs it (tick src
316-346, cancel src 162-189): the full new list is computed before any
mutation; the live points are then cleared one by one, and only if clearing
completed are the new keys inserted one by one. -/
def applyCurveUpdate (failClear failInsert : ℕ → Bool)
    (live newKeys : List Keyframe) : List Keyframe :=
  let cleared := clearKeys failClear live 0
  if cleared.2 then insertLoopF failInsert newKeys else cleared.1

theorem clearKeys_no_fail (failClear : ℕ → Bool) (h : ∀ j, failClear j = false) :
    ∀ (l : List Keyframe) (j : ℕ), clearKeys failClear l j = ([], true) := by
  intro l
  induction l with
  | nil => intro j; rfl
  | cons k rest ih =>
    intro j
    unfold clearKeys
    rw [h j]
    simp only [Bool.false_eq_true, if_false]
    exact ih (j + 1)

theorem insertKey_append_of_lt {acc : List Keyframe} {k : Keyframe}
    (h : ∀ k2 ∈ acc, k2.x < k.x) : insertKey acc k = acc ++ [k] := by
  induction acc with
  | nil => rfl
  | cons k1 rest ih =>
    have h1 : k1.x < k.x := h k1 (by simp)
    unfold insertKey
    rw [if_neg (by intro hc; rw [hc] at h1; exact lt_irrefl _ h1),
      if_neg (by intro hc; exact lt_asymm h1 hc)]
    rw [ih (fun k2 hk2 => h k2 (by simp [hk2]))]
    rfl

theorem foldl_insertKey_of_pairwise :
    ∀ (l acc : List Keyframe), (acc ++ l).Pairwise (fun a b => a.x < b.x) →
      l.foldl insertKey acc = acc ++ l := by
  intro l
  induction l with
  | nil => intro acc _; simp
  | cons k rest ih =>
    intro acc hp
    rw [List.foldl_cons]
    have hlt : ∀ k2 ∈ acc, k2.x < k.x := by
      intro k2 hk2
      have := (List.pairwise_append.mp hp).2.2
      exact this k2 hk2 k (by simp)
    rw [insertKey_append_of_lt hlt]
    have hp2 : ((acc ++ [k]) ++ rest).Pairwise (fun a b => a.x < b.x) := by
      rw [List.append_assoc]
      simpa using hp
    rw [ih (acc ++ [k]) hp2, List.append_assoc]
    rfl

theorem insertLoopF_no_fail (failInsert : ℕ → Bool) (h : ∀ i, failInsert i = false)
    (newKeys : List Keyframe) :
    insertLoopF failInsert newKeys = newKeys.foldl insertKey [] := by
  unfold insertLoopF
  have hgen : ∀ (l : List Keyframe) (n : ℕ) (acc : List Keyframe),
      (l.enumFrom n).foldl (fun acc2 ik =>
        if failInsert ik.1 then acc2 else insertKey acc2 ik.2) acc =
      l.foldl insertKey acc := by
    intro l
    induction l with
    | nil => intro n acc; rfl
    | cons k rest ih =>
      intro n acc
      simp only [List.enumFrom, List.foldl_cons]
      rw [h n]
      simp only [Bool.false_eq_true, if_false]
      exact ih (n + 1) (insertKey acc k)
  exact hgen newKeys 0 []

/-- C8 (amended): for every curve replacement in tick and cancel, the full
new keyframe list is computed before the curve is touched, and a failure-free
execution replaces the curve completely with the new sorted list; but the
clearing and insertion themselves are incremental, not atomic: a host failure
while clearing leaves the curve partially cleared with the rebuild skipped,
and a failure while inserting one key omits exactly that key while the rest
are written. -/
theorem C8_replacement_and_failure_modes (failClear failInsert : ℕ → Bool)
    (live newKeys : List Keyframe) :
    ((∀ j, failClear j = false) → (∀ i, failInsert i = false) →
      newKeys.Pairwise (fun a b => a.x < b.x) →
      applyCurveUpdate failClear failInsert live newKeys = newKeys) ∧
    (∀ rem, clearKeys failClear live 0 = (rem, false) →
      applyCurveUpdate failClear failInsert live newKeys = rem) ∧
    (clearKeys failClear live 0 = ([], true) →
      applyCurveUpdate failClear failInsert live newKeys =
        insertLoopF failInsert newKeys) := by
  refine ⟨?_, ?_, ?_⟩
  · intro hc hi hp
    unfold applyCurveUpdate
    rw [clearKeys_no_fail failClear hc live 0]
    simp only [if_true]
    rw [insertLoopF_no_fail failInsert hi newKeys]
    exact foldl_insertKey_of_pairwise newKeys [] (by simpa using hp)
  · intro rem hrem
    unfold applyCurveUpdate
    rw [hrem]
    simp
  · intro hok
    unfold applyCurveUpdate
    rw [hok]
    simp

theorem C8_replacement_and_failure_modes_witness :
    applyCurveUpdate (fun _ => false) (fun _ => false)
      [{ sampleKey with x := 1 }, { sampleKey with x := 2 }]
      [{ sampleKey with x := 5 }] = [{ sampleKey with x := 5 }] := by
  exact (C8_replacement_and_failure_modes (fun _ => false) (fun _ => false)
      [{ sampleKey with x := 1 }, { sampleKey with x := 2 }]
      [{ sampleKey with x := 5 }]).1
    (fun _ => rfl) (fun _ => rfl) (by simp)

theorem retimeObj_name (os cs : List (ℚ × ℚ)) (snap : Bool)
    (stored : List ((String × ℕ) × List Keyframe)) (o : Obj) :
    (retimeObj os cs snap stored o).name = o.name := rfl

theorem restoreObject_name (stored : List ((String × ℕ) × List Keyframe)) (o : Obj) :
    (restoreObject stored o).name = o.name := rfl

theorem tickObjectUpdate_name (os cs : List (ℚ × ℚ)) (snap : Bool)
    (temp : List (String × List ((String × ℕ) × List Keyframe)))
    (n : String) (o : Obj) :
    (tickObjectUpdate os cs snap temp n o).name = o.name := by
  unfold tickObjectUpdate
  cases o.anim <;> cases dictGet n temp <;> rfl

theorem cancelObjectUpdate_name
    (temp : List (String × List ((String × ℕ) × List Keyframe)))
    (n : String) (o : Obj) :
    (cancelObjectUpdate temp n o).name = o.name := by
  unfold cancelObjectUpdate
  cases o.anim <;> cases dictGet n temp <;> rfl

theorem objShape_retimeObj (os cs : List (ℚ × ℚ)) (snap : Bool)
    (stored : List ((String × ℕ) × List Keyframe)) (o : Obj) :
    objShape (retimeObj os cs snap stored o) = objShape o := by
  obtain ⟨n, sel, anim⟩ := o
  cases anim with
  | none => rfl
  | some curves =>
    simp only [objShape, retimeObj, Option.map_some', List.map_map]
    refine congrArg _ (congrArg _ (congrArg _ ?_))
    apply List.map_congr_left
    intro c _
    show curveKey (match dictGet (curveKey c) stored with
      | none => c
      | some orig =>
        { c with keyframe_points :=
            if orig.isEmpty then []
            else retimeCurveKeys os cs snap orig }) = curveKey c
    cases dictGet (curveKey c) stored <;> rfl

theorem objShape_restoreObject
    (stored : List ((String × ℕ) × List Keyframe)) (o : Obj) :
    objShape (restoreObject stored o) = objShape o := by
  obtain ⟨n, sel, anim⟩ := o
  cases anim with
  | none => rfl
  | some curves =>
    simp only [objShape, restoreObject, Option.map_some', List.map_map]
    refine congrArg _ (congrArg _ (congrArg _ ?_))
    apply List.map_congr_left
    intro c _
    show curveKey (restoreCurve stored c) = curveKey c
    unfold restoreCurve
    cases dictGet (curveKey c) stored <;> rfl

theorem objShape_tickObjectUpdate (os cs : List (ℚ × ℚ)) (snap : Bool)
    (temp : List (String × List ((String × ℕ) × List Keyframe)))
    (n : String) (o : Obj) :
    objShape (tickObjectUpdate os cs snap temp n o) = objShape o := by
  unfold tickObjectUpdate
  cases h1 : o.anim with
  | none => cases dictGet n temp <;> rfl
  | some curves =>
    cases h2 : dictGet n temp with
    | none => rfl
    | some stored => exact objShape_retimeObj os cs snap stored o

theorem objShape_cancelObjectUpdate
    (temp : List (String × List ((String × ℕ) × List Keyframe)))
    (n : String) (o : Obj) :
    objShape (cancelObjectUpdate temp n o) = objShape o := by
  unfold cancelObjectUpdate
  cases h1 : o.anim with
  | none => cases dictGet n temp <;> rfl
  | some curves =>
    cases h2 : dictGet n temp with
    | none => rfl
    | some stored => exact objShape_restoreObject stored o

theorem findObj_map_of_name_preserved (f : Obj → Obj) (hf : ∀ o, (f o).name = o.name) :
    ∀ (objs : List Obj) (n : String), findObj (objs.map f) n = (findObj objs n).map f := by
  intro objs n
  induction objs with
  | nil => rfl
  | cons o t ih =>
    rw [List.map_cons]
    unfold findObj at ih ⊢
    by_cases h : o.name = n
    · rw [List.find?_cons_of_pos _ (by simp [hf o, h]),
        List.find?_cons_of_pos _ (by simp [h])]
      rfl
    · rw [List.find?_cons_of_neg _ (by simp [hf o, h]),
        List.find?_cons_of_neg _ (by simp [h])]
      exact ih

theorem findObj_name {objs : List Obj} {n : String} {o : Obj}
    (h : findObj objs n = some o) : o.name = n := by
  unfold findObj at h
  have := List.find?_some h
  simpa using this

/-- Folding the per-object-name update over a duplicate-free name list
updates the object looked up by name exactly once (when its name is in the
list) and leaves it alone otherwise. -/
theorem foldl_mapUpdate_findObj (g : String → Obj → Obj)
    (hg : ∀ n2 o, (g n2 o).name = o.name) :
    ∀ (names : List String) (objs : List Obj) (n : String), names.Nodup →
      findObj (names.foldl (fun objs2 n2 =>
        objs2.map (fun o => if o.name = n2 then g n2 o else o)) objs) n =
      (if n ∈ names then (findObj objs n).map (g n) else findObj objs n) := by
  intro names
  induction names with
  | nil => intro objs n _; simp
  | cons n1 rest ih =>
    intro objs n hnd
    rw [List.foldl_cons]
    have hf1 : ∀ o : Obj, ((fun o => if o.name = n1 then g n1 o else o) o).name = o.name := by
      intro o
      by_cases h : o.name = n1 <;> simp [h, hg]
    have hobjs1 : findObj (objs.map (fun o => if o.name = n1 then g n1 o else o)) n =
        (findObj objs n).map (fun o => if o.name = n1 then g n1 o else o) :=
      findObj_map_of_name_preserved _ hf1 objs n
    rw [ih (objs.map (fun o => if o.name = n1 then g n1 o else o)) n
      (List.nodup_cons.mp hnd).2]
    by_cases hmem : n ∈ rest
    · rw [if_pos hmem, if_pos (by simp [hmem]), hobjs1]
      cases hfo : findObj objs n with
      | none => rfl
      | some o =>
        have hname : o.name = n := findObj_name hfo
        have hne : n ≠ n1 := fun hc => (List.nodup_cons.mp hnd).1 (hc ▸ hmem)
        simp only [Option.map_some']
        rw [if_neg (by rw [hname]; exact hne)]
    · rw [if_neg hmem, hobjs1]
      by_cases heq : n = n1
      · subst heq
        rw [if_pos (by simp)]
        cases hfo : findObj objs n with
        | none => rfl
        | some o =>
          have hname : o.name = n := findObj_name hfo
          simp only [Option.map_some']
          rw [if_pos hname]
      · rw [if_neg (by simp [heq, hmem])]
        cases hfo : findObj objs n with
        | none => rfl
        | some o =>
          have hname : o.name = n := findObj_name hfo
          simp only [Option.map_some']
          rw [if_neg (by rw [hname]; exact heq)]

theorem map_objShape_foldl_update (g : String → Obj → Obj)
    (hg : ∀ n2 o, objShape (g n2 o) = objShape o) :
    ∀ (names : List String) (objs : List Obj),
      ((names.foldl (fun objs2 n2 =>
        objs2.map (fun o => if o.name = n2 then g n2 o else o)) objs).map objShape) =
      objs.map objShape := by
  intro names
  induction names with
  | nil => intro objs; rfl
  | cons n1 rest ih =>
    intro objs
    rw [List.foldl_cons, ih]
    rw [List.map_map]
    apply List.map_congr_left
    intro o _
    show objShape (if o.name = n1 then g n1 o else o) = objShape o
    by_cases h : o.name = n1
    · rw [if_pos h]; exact hg n1 o
    · rw [if_neg h]

theorem recomputeObjects_shape (s : State) :
    (recomputeObjects s).map objShape = s.objects.map objShape := by
  have h0 : recomputeObjects s =
      s.retimer.objects_processed.foldl (fun objs2 n2 =>
        objs2.map (fun o => if o.name = n2 then
          tickObjectUpdate (currentSegmentsOf s).1 (currentSegmentsOf s).2 s.snap
            s.retimer.objects_temp_keyframe_data n2 o
          else o)) s.objects := rfl
  rw [h0]
  exact map_objShape_foldl_update _
    (fun n2 o => objShape_tickObjectUpdate _ _ _ _ n2 o) _ _

theorem processRetiming_retimer_eq (s : State) :
    (processRetiming s).retimer = s.retimer := by
  unfold processRetiming
  split_ifs <;> rfl

theorem processRetiming_markers_eq (s : State) :
    (processRetiming s).markers = s.markers := by
  unfold processRetiming
  split_ifs <;> rfl

theorem processRetiming_active_eq (s : State) :
    (processRetiming s).retimer_active = s.retimer_active := by
  unfold processRetiming
  split_ifs <;> rfl

theorem processRetiming_snap_eq (s : State) :
    (processRetiming s).snap = s.snap := by
  unfold processRetiming
  split_ifs <;> rfl

theorem processRetiming_objects_shape (s : State) :
    (processRetiming s).objects.map objShape = s.objects.map objShape := by
  unfold processRetiming
  split_ifs <;> try rfl
  exact recomputeObjects_shape s

/-- C10: when a tick recomputes (at least 2 ordered markers, positions
changed since the last poll, captured markers present with at least 2 still
valid), every tracked curve of a processed object is rewritten purely from
its captured samples: its live keyframes become the quantized image of the
captured list — computed from the capture, the rebuilt segments and the snap
flag only, never from the curve's current live keys — and in particular a
curve whose captured list is empty has its live keyframe set emptied,
removing whatever keys were found on it. -/
theorem C10_tick_rewrites_tracked_curves_from_capture
    (s : State) (n : String) (o : Obj) (curves : List FCurve)
    (stored : List ((String × ℕ) × List Keyframe))
    (h1 : ¬ (get_ordered_markers s.markers).length < 2)
    (h2 : ¬ dictEqB (markersDict (get_ordered_markers s.markers))
        s.last_marker_positions = true)
    (h3 : ¬ s.retimer.original_markers.isEmpty = true)
    (h4 : ¬ (validNamesOf s.retimer.original_markers
        (markersDict (get_ordered_markers s.markers))).length < 2)
    (hnd : s.retimer.objects_processed.Nodup)
    (hn : n ∈ s.retimer.objects_processed)
    (hfind : findObj s.objects n = some o)
    (hanim : o.anim = some curves)
    (hstored : dictGet n s.retimer.objects_temp_keyframe_data = some stored) :
    findObj (processRetiming s).objects n =
      some (retimeObj (currentSegmentsOf s).1 (currentSegmentsOf s).2 s.snap stored o) ∧
    (retimeObj (currentSegmentsOf s).1 (currentSegmentsOf s).2 s.snap stored o).anim =
      some (curves.map (fun c =>
        match dictGet (curveKey c) stored with
        | none => c
        | some orig =>
          { c with keyframe_points :=
              if orig.isEmpty then []
              else retimeCurveKeys (currentSegmentsOf s).1 (currentSegmentsOf s).2
                     s.snap orig })) ∧
    (∀ c ∈ curves, dictGet (curveKey c) stored = some [] →
      (match dictGet (curveKey c) stored with
        | none => c
        | some orig =>
          { c with keyframe_points :=
              if orig.isEmpty then []
              else retimeCurveKeys (currentSegmentsOf s).1 (currentSegmentsOf s).2
                     s.snap orig }) =
        { c with keyframe_points := ([] : List Keyframe) }) := by
  have hne : ¬ s.retimer.objects_processed.isEmpty = true := by
    rw [List.isEmpty_iff]
    intro hc
    rw [hc] at hn
    simp at hn
  refine ⟨?_, ?_, ?_⟩
  · have hpr : processRetiming s = { s with
        last_marker_positions := markersDict (get_ordered_markers s.markers)
        objects := recomputeObjects s } := by
      unfold processRetiming
      rw [if_neg h1, if_neg h2, if_neg h3, if_neg h4, if_neg hne]
    rw [hpr]
    have h0 : recomputeObjects s =
        s.retimer.objects_processed.foldl (fun objs2 n2 =>
          objs2.map (fun o2 => if o2.name = n2 then
            tickObjectUpdate (currentSegmentsOf s).1 (currentSegmentsOf s).2 s.snap
              s.retimer.objects_temp_keyframe_data n2 o2
            else o2)) s.objects := rfl
    show findObj (recomputeObjects s) n = _
    rw [h0, foldl_mapUpdate_findObj _
      (tickObjectUpdate_name (currentSegmentsOf s).1 (currentSegmentsOf s).2 s.snap
        s.retimer.objects_temp_keyframe_data)
      s.retimer.objects_processed s.objects n hnd]
    rw [if_pos hn, hfind]
    simp only [Option.map_some']
    unfold tickObjectUpdate
    rw [hanim, hstored]
  · have h0 : (retimeObj (currentSegmentsOf s).1 (currentSegmentsOf s).2 s.snap
        stored o).anim =
      o.anim.map (fun curves2 => curves2.map (fun c =>
        match dictGet (curveKey c) stored with
        | none => c
        | some orig =>
          { c with keyframe_points :=
              if orig.isEmpty then []
              else retimeCurveKeys (currentSegmentsOf s).1 (currentSegmentsOf s).2
                     s.snap orig })) := rfl
    rw [h0, hanim]
    rfl
  · intro c _ hc
    rw [hc]
    simp

def sampleTickState : State :=
  { markers := [{ name := "RT_a", frame := 0 }, { name := "RT_b", frame := 20 }],
    objects := [{ name := "Cube", selected := true,
                  anim := some [{ data_path := "location", array_index := 0,
                                  keyframe_points := [sampleKey] }] }],
    retimer := { original_markers := [("RT_a", 0), ("RT_b", 10)],
                 original_start := 0, original_end := 10,
                 original_segments := [(0, 10)],
                 objects_processed := ["Cube"],
                 objects_temp_keyframe_data :=
                   [("Cube", [(("location", 0), ([] : List Keyframe))])] },
    retimer_active := true,
    snap := true,
    last_marker_positions := [("RT_a", 0), ("RT_b", 10)] }

theorem C10_tick_rewrites_tracked_curves_from_capture_witness :
    findObj (processRetiming sampleTickState).objects "Cube" =
      some (retimeObj (currentSegmentsOf sampleTickState).1
        (currentSegmentsOf sampleTickState).2 sampleTickState.snap
        [(("location", 0), ([] : List Keyframe))]
        { name := "Cube", selected := true,
          anim := some [{ data_path := "location", array_index := 0,
                          keyframe_points := [sampleKey] }] }) := by
  have h := C10_tick_rewrites_tracked_curves_from_capture sampleTickState "Cube"
    { name := "Cube", selected := true,
      anim := some [{ data_path := "location", array_index := 0,
                      keyframe_points := [sampleKey] }] }
    [{ data_path := "location", array_index := 0, keyframe_points := [sampleKey] }]
    [(("location", 0), ([] : List Keyframe))]
    (by norm_num [sampleTickState, get_ordered_markers, strStartsWith,
      List.insertionSort, List.orderedInsert])
    (by decide)
    (by norm_num [sampleTickState])
    (by decide)
    (by norm_num [sampleTickState])
    (by norm_num [sampleTickState])
    (by norm_num [sampleTickState, findObj, List.find?])
    rfl
    (by norm_num [sampleTickState, dictGet])
  exact h.1

/-- C8 counterexample: a curve with two keyframes, a replacement list of one
key, and a host failure at the second removal step.  The caught failure
leaves the curve holding exactly its second original key: neither the old
list, nor the new list, nor empty — a partially cleared curve, contradicting
the claim that no execution path leaves one. -/
theorem C8_partial_clear_counterexample :
    applyCurveUpdate (fun j => decide (j = 1)) (fun _ => false)
        [{ sampleKey with x := 1 }, { sampleKey with x := 2 }]
        [{ sampleKey with x := 5 }] = [{ sampleKey with x := 2 }] ∧
    [{ sampleKey with x := 2 }] ≠
      [{ sampleKey with x := 1 }, { sampleKey with x := 2 }] ∧
    [{ sampleKey with x := 2 }] ≠ [{ sampleKey with x := 5 }] ∧
    [{ sampleKey with x := 2 }] ≠ ([] : List Keyframe) := by
  refine ⟨?_, by simp [sampleKey], by norm_num [sampleKey], by simp⟩
  norm_num [applyCurveUpdate, clearKeys, sampleKey]

theorem dictGet_none_iff {α β : Type} [DecidableEq α] :
    ∀ (d : List (α × β)) (k : α), dictGet k d = none ↔ k ∉ d.map Prod.fst := by
  intro d
  induction d with
  | nil => intro k; simp [dictGet]
  | cons kv t ih =>
    intro k
    obtain ⟨k1, v1⟩ := kv
    by_cases h : k = k1
    · subst h
      simp [dictGet]
    · simp [dictGet, h, ih k]

theorem dictGet_mem_of_eq_some {α β : Type} [DecidableEq α] :
    ∀ (d : List (α × β)) (k : α) (v : β), dictGet k d = some v → (k, v) ∈ d := by
  intro d
  induction d with
  | nil => intro k v h; simp [dictGet] at h
  | cons kv t ih =>
    intro k v h
    obtain ⟨k1, v1⟩ := kv
    by_cases h1 : k = k1
    · subst h1
      simp [dictGet] at h
      simp [h]
    · simp [dictGet, h1] at h
      exact List.mem_cons_of_mem _ (ih k v h)

theorem dictInsert_ne_nil {α β : Type} [DecidableEq α] (d : List (α × β)) (k : α) (v : β) :
    dictInsert d k v ≠ [] := by
  cases d with
  | nil => simp [dictInsert]
  | cons kv t =>
    obtain ⟨k1, v1⟩ := kv
    by_cases h : k = k1 <;> simp [dictInsert, h]

theorem foldl_dictInsert_ne_nil {α β γ : Type} [DecidableEq α]
    (key : γ → α) (val : γ → β) :
    ∀ (l : List γ) (d : List (α × β)), d ≠ [] →
      l.foldl (fun d2 c => dictInsert d2 (key c) (val c)) d ≠ [] := by
  intro l
  induction l with
  | nil => intro d hd; exact hd
  | cons c t ih =>
    intro d _
    rw [List.foldl_cons]
    exact ih _ (dictInsert_ne_nil d (key c) (val c))

theorem markersDict_ne_nil (ms : List Marker) (h : ms ≠ []) : markersDict ms ≠ [] := by
  cases ms with
  | nil => exact absurd rfl h
  | cons m t =>
    show (m :: t).foldl (fun d m2 => dictInsert d m2.name m2.frame) [] ≠ []
    rw [List.foldl_cons]
    exact foldl_dictInsert_ne_nil (fun m2 : Marker => m2.name) (fun m2 : Marker => m2.frame)
      t _ (dictInsert_ne_nil [] m.name m.frame)

/-- In a list with duplicate-free keys, filtering for the key of a member
keeps exactly that member. -/
theorem filter_eq_singleton_of_nodup_key {α β : Type} [DecidableEq β] (key : α → β) :
    ∀ (l : List α) (c : α), (l.map key).Nodup → c ∈ l →
      l.filter (fun c2 => key c2 = key c) = [c] := by
  intro l
  induction l with
  | nil => intro c _ hc; simp at hc
  | cons a t ih =>
    intro c hnd hc
    rw [List.map_cons, List.nodup_cons] at hnd
    rcases List.mem_cons.mp hc with h | h
    · subst h
      rw [List.filter_cons_of_pos (by simp)]
      have ht : t.filter (fun c2 => key c2 = key c) = [] := by
        rw [List.filter_eq_nil_iff]
        intro b hb hkb
        simp only [decide_eq_true_eq] at hkb
        exact hnd.1 (by rw [← hkb]; exact List.mem_map.mpr ⟨b, hb, rfl⟩)
      rw [ht]
    · have hne : ¬ (key a = key c) := by
        intro hcq
        exact hnd.1 (by rw [hcq]; exact List.mem_map.mpr ⟨c, h, rfl⟩)
      rw [List.filter_cons_of_neg (by simpa using hne)]
      exact ih c hnd.2 h

/-- Looking a member's key up in the dict built from a duplicate-free-keyed
list returns that member's value. -/
theorem dictGet_build_of_nodup {α β γ : Type} [DecidableEq α]
    (key : γ → α) (val : γ → β) (l : List γ) (c : γ)
    (hnd : (l.map key).Nodup) (hc : c ∈ l) :
    dictGet (key c) (l.foldl (fun d x => dictInsert d (key x) (val x)) []) =
      some (val c) := by
  have h0 := dictGet_foldl_insert key val (key c) l []
  rw [h0, filter_eq_singleton_of_nodup_key key l c hnd hc]
  rfl

theorem foldl_if_true_eq {α β : Type} (p : α → Bool) (f : β → α → β) :
    ∀ (l : List α) (init : β), (∀ a ∈ l, p a = true) →
      l.foldl (fun d a => if p a then f d a else d) init = l.foldl f init := by
  intro l
  induction l with
  | nil => intro init _; rfl
  | cons a t ih =>
    intro init h
    rw [List.foldl_cons, List.foldl_cons, if_pos (h a (by simp))]
    exact ih (f init a) (fun b hb => h b (by simp [hb]))

/-- Every selected-and-animated object passes the capture (src 117-119). -/
theorem filter_storeSucceeds_selected (objs : List Obj) :
    (objs.filter (fun o => o.selected && o.anim.isSome)).filter storeSucceeds
      = objs.filter (fun o => o.selected && o.anim.isSome) := by
  apply List.filter_eq_self.mpr
  intro o ho
  have hmem := List.of_mem_filter ho
  simp only [Bool.and_eq_true] at hmem
  unfold storeSucceeds
  exact hmem.2

/-- The begin-time snapshot dict maps each selected animated object's name
to its capture. -/
theorem temp_lookup_of_selected (objs : List Obj) (o0 : Obj)
    (hnd : (objs.map (fun o => o.name)).Nodup)
    (ho : o0 ∈ objs) (hsel : o0.selected = true) (hanim : o0.anim.isSome = true) :
    dictGet o0.name
      ((objs.filter (fun o => o.selected && o.anim.isSome)).foldl
        (fun d o => if storeSucceeds o then dictInsert d o.name (captureObject o) else d) []) =
      some (captureObject o0) := by
  have hall : ∀ o ∈ objs.filter (fun o => o.selected && o.anim.isSome),
      storeSucceeds o = true := by
    intro o ho2
    have hmem := List.of_mem_filter ho2
    simp only [Bool.and_eq_true] at hmem
    unfold storeSucceeds
    exact hmem.2
  have h1 := foldl_if_true_eq storeSucceeds
    (fun d (o : Obj) => dictInsert d o.name (captureObject o))
    (objs.filter (fun o => o.selected && o.anim.isSome)) [] hall
  rw [h1]
  have hmemf : o0 ∈ objs.filter (fun o => o.selected && o.anim.isSome) :=
    List.mem_filter.mpr ⟨ho, by simp [hsel, hanim]⟩
  have hsub : ((objs.filter (fun o => o.selected && o.anim.isSome)).map
      (fun o => o.name)).Sublist (objs.map (fun o => o.name)) :=
    (List.filter_sublist objs).map (fun o : Obj => o.name)
  have hnd2 : ((objs.filter (fun o => o.selected && o.anim.isSome)).map
      (fun o => o.name)).Nodup := hnd.sublist hsub
  exact dictGet_build_of_nodup (fun o : Obj => o.name) captureObject _ o0 hnd2 hmemf

/-- With duplicate-free object names, a member is found by its name. -/
theorem findObj_of_mem_nodup :
    ∀ (objs : List Obj), ((objs.map (fun o => o.name)).Nodup) →
      ∀ o ∈ objs, findObj objs o.name = some o := by
  intro objs
  induction objs with
  | nil => intro _ o ho; simp at ho
  | cons o1 t ih =>
    intro hnd o ho
    rw [List.map_cons, List.nodup_cons] at hnd
    rcases List.mem_cons.mp ho with h | h
    · subst h
      unfold findObj
      rw [List.find?_cons_of_pos _ (by simp)]
    · have hne : ¬ (o1.name = o.name) := by
        intro hc
        exact hnd.1 (by rw [hc]; exact List.mem_map.mpr ⟨o, h, rfl⟩)
      unfold findObj
      rw [List.find?_cons_of_neg _ (by simpa using hne)]
      exact ih hnd.2 o h

/-- Shape-equal object lists resolve names to shape-equal results. -/
theorem findObj_shape_map_eq :
    ∀ (l1 l2 : List Obj), l1.map objShape = l2.map objShape →
      ∀ n, (findObj l1 n).map objShape = (findObj l2 n).map objShape := by
  intro l1
  induction l1 with
  | nil =>
    intro l2 h n
    cases l2 with
    | nil => rfl
    | cons o2 t2 => simp at h
  | cons o1 t1 ih =>
    intro l2 h n
    cases l2 with
    | nil => simp at h
    | cons o2 t2 =>
      simp only [List.map_cons, List.cons.injEq] at h
      have hname : o1.name = o2.name := congrArg Prod.fst h.1
      unfold findObj
      by_cases hn : o1.name = n
      · rw [List.find?_cons_of_pos _ (by simp [hn]),
          List.find?_cons_of_pos _ (by simp [← hname, hn])]
        simp only [Option.map_some']
        rw [h.1]
      · rw [List.find?_cons_of_neg _ (by simp [hn]),
          List.find?_cons_of_neg _ (by simp [← hname, hn])]
        exact ih t2 h.2 n

theorem runStep_retimer_eq (s : State) (st : Step) : (runStep s st).retimer = s.retimer := by
  cases st with
  | tick => exact processRetiming_retimer_eq s
  | setMarkers ms => rfl
  | setCurveKeys n k ks => rfl

theorem runSteps_retimer_eq (steps : List Step) :
    ∀ s : State, (runSteps s steps).retimer = s.retimer := by
  induction steps with
  | nil => intro s; rfl
  | cons st rest ih =>
    intro s
    show (runSteps (runStep s st) rest).retimer = s.retimer
    rw [ih (runStep s st), runStep_retimer_eq]

theorem runStep_objects_shape (s : State) (st : Step) :
    (runStep s st).objects.map objShape = s.objects.map objShape := by
  cases st with
  | tick => exact processRetiming_objects_shape s
  | setMarkers ms => rfl
  | setCurveKeys n k ks =>
    show ((s.objects.map (fun o => if o.name = n then
        { o with anim := o.anim.map (fun curves => curves.map (fun c =>
            if curveKey c = k then { c with keyframe_points := ks } else c)) }
      else o)).map objShape) = s.objects.map objShape
    rw [List.map_map]
    apply List.map_congr_left
    intro o _
    show objShape (if o.name = n then
        { o with anim := o.anim.map (fun curves => curves.map (fun c =>
            if curveKey c = k then { c with keyframe_points := ks } else c)) }
      else o) = objShape o
    by_cases h : o.name = n
    · rw [if_pos h]
      obtain ⟨nm, sel, anim⟩ := o
      cases anim with
      | none => rfl
      | some curves =>
        simp only [objShape, Option.map_some', List.map_map]
        refine congrArg _ (congrArg _ (congrArg _ ?_))
        apply List.map_congr_left
        intro c _
        show curveKey (if curveKey c = k then { c with keyframe_points := ks } else c) =
          curveKey c
        by_cases h2 : curveKey c = k
        · rw [if_pos h2]; rfl
        · rw [if_neg h2]
    · rw [if_neg h]

theorem runSteps_objects_shape (steps : List Step) :
    ∀ s : State, (runSteps s steps).objects.map objShape = s.objects.map objShape := by
  induction steps with
  | nil => intro s; rfl
  | cons st rest ih =>
    intro s
    show (runSteps (runStep s st) rest).objects.map objShape = s.objects.map objShape
    rw [ih (runStep s st), runStep_objects_shape]

theorem cancelRestorePhase_markers (s : State) :
    (cancelRestorePhase s).markers = s.markers := by
  unfold cancelRestorePhase
  split_ifs <;> rfl

theorem cancelRestorePhase_retimer (s : State) :
    (cancelRestorePhase s).retimer = s.retimer := by
  unfold cancelRestorePhase
  split_ifs <;> rfl

theorem cancelMarkerPhase_objects (s : State) :
    (cancelMarkerPhase s).objects = s.objects := by
  unfold cancelMarkerPhase
  split_ifs <;> rfl

/-- Restoring from a nonempty snapshot dict updates the object found by each
processed name exactly once. -/
theorem cancelRestorePhase_findObj (s : State) (n : String)
    (htempne : s.retimer.objects_temp_keyframe_data.isEmpty = false)
    (hnd : s.retimer.objects_processed.Nodup)
    (hn : n ∈ s.retimer.objects_processed) :
    findObj (cancelRestorePhase s).objects n =
      (findObj s.objects n).map
        (cancelObjectUpdate s.retimer.objects_temp_keyframe_data n) := by
  unfold cancelRestorePhase
  rw [if_neg (by rw [htempne]; exact Bool.false_ne_true)]
  show findObj (s.retimer.objects_processed.foldl (fun objs n2 =>
      objs.map (fun o => if o.name = n2 then
        cancelObjectUpdate s.retimer.objects_temp_keyframe_data n2 o else o)) s.objects) n = _
  rw [foldl_mapUpdate_findObj (cancelObjectUpdate s.retimer.objects_temp_keyframe_data)
    (cancelObjectUpdate_name s.retimer.objects_temp_keyframe_data)
    s.retimer.objects_processed s.objects n hnd]
  rw [if_pos hn]

/-- The start operator in the Idle state with at least 2 ordered markers and
a selected animated object begins the session. -/
theorem retimeExecute_success (s : State)
    (hact : s.retimer_active = false)
    (hm : ¬ (get_ordered_markers s.markers).length < 2)
    (hsel : (s.objects.filter (fun o => o.selected && o.anim.isSome)).isEmpty = false) :
    retimeExecute s = (ExecResult.runningModal, beginState s) := by
  have hfilter := filter_storeSucceeds_selected s.objects
  unfold retimeExecute
  rw [if_pos hact, if_neg hm,
    if_neg (by rw [hsel]; exact Bool.false_ne_true),
    if_neg (by
      rw [hfilter]
      intro hc
      rw [List.length_eq_zero] at hc
      rw [hc] at hsel
      simp at hsel)]

/-- The spec's view of cancel's per-marker restore: a still-present captured
marker goes back to its captured original frame, any other marker is left
alone. -/
def markerRestore (om : List (String × ℚ)) (m : Marker) : Marker :=
  match dictGet m.name om with
  | some f => { m with frame := f }
  | none => m

/-- The per-name frame-restoring fold of cancel (src 544-548) equals, for
duplicate-free captured names, a single pass setting each marker from the
captured dict. -/
theorem marker_fold_eq_map :
    ∀ (om : List (String × ℚ)), (om.map Prod.fst).Nodup →
      ∀ ms : List Marker,
        om.foldl (fun ms2 nf =>
          ms2.map (fun m => if m.name = nf.1 then { m with frame := nf.2 } else m)) ms =
        ms.map (markerRestore om) := by
  intro om
  induction om with
  | nil =>
    intro _ ms
    rw [List.foldl_nil]
    induction ms with
    | nil => rfl
    | cons m t ihm =>
      rw [List.map_cons, ← ihm]
      rfl
  | cons nf om2 ih =>
    intro hnd ms
    rw [List.map_cons, List.nodup_cons] at hnd
    rw [List.foldl_cons, ih hnd.2, List.map_map]
    apply List.map_congr_left
    intro m _
    show markerRestore om2 (if m.name = nf.1 then { m with frame := nf.2 } else m) =
      markerRestore (nf :: om2) m
    by_cases hm : m.name = nf.1
    · rw [if_pos hm]
      unfold markerRestore
      have h1 : dictGet ({ m with frame := nf.2 } : Marker).name om2 = none := by
        show dictGet m.name om2 = none
        exact (dictGet_none_iff om2 m.name).mpr (by rw [hm]; exact hnd.1)
      have h2 : dictGet m.name (nf :: om2) = some nf.2 := by
        show (if m.name = nf.1 then some nf.2 else dictGet m.name om2) = some nf.2
        rw [if_pos hm]
      rw [h1, h2]
    · rw [if_neg hm]
      unfold markerRestore
      have h2 : dictGet m.name (nf :: om2) = dictGet m.name om2 := by
        show (if m.name = nf.1 then some nf.2 else dictGet m.name om2) = dictGet m.name om2
        rw [if_neg hm]
      rw [h2]

/-- The marker phase of cancel, for duplicate-free captured names: every
marker is set back to its captured frame when one exists, and the
`RT_`-prefixed markers with no captured entry are removed. -/
theorem cancelMarkerPhase_spec (s : State)
    (homnd : (s.retimer.original_markers.map Prod.fst).Nodup)
    (homne : s.retimer.original_markers ≠ []) :
    (cancelMarkerPhase s).markers =
      (s.markers.map (markerRestore s.retimer.original_markers)).filter
        (fun m => !(strStartsWith "RT_" m.name &&
          (dictGet m.name s.retimer.original_markers).isNone)) := by
  unfold cancelMarkerPhase
  rw [if_neg (fun h => homne (List.isEmpty_iff.mp h))]
  by_cases hms : s.markers.isEmpty = true
  · rw [if_pos hms]
    rw [List.isEmpty_iff] at hms
    rw [hms]
    rfl
  · rw [if_neg hms]
    show ((s.retimer.original_markers.foldl
        (fun ms nf =>
          ms.map (fun m => if m.name = nf.1 then { m with frame := nf.2 } else m))
        s.markers).filter (fun m =>
          !(strStartsWith "RT_" m.name &&
            !(((s.retimer.original_markers.filter (fun nf =>
                s.markers.any (fun m2 => m2.name = nf.1))).map
              Prod.fst).contains m.name)))) = _
    rw [marker_fold_eq_map s.retimer.original_markers homnd s.markers]
    apply List.filter_congr
    intro m hmem
    obtain ⟨m0, hm0, hfix⟩ := List.mem_map.mp hmem
    have hname : m.name = m0.name := by
      rw [← hfix]
      unfold markerRestore
      cases dictGet m0.name s.retimer.original_markers <;> rfl
    cases hd : dictGet m.name s.retimer.original_markers with
    | some f =>
      have hCmem : m.name ∈ (s.retimer.original_markers.filter
          (fun nf => s.markers.any (fun m2 => m2.name = nf.1))).map Prod.fst := by
        have hent := dictGet_mem_of_eq_some _ _ _ hd
        refine List.mem_map.mpr ⟨(m.name, f), ?_, rfl⟩
        refine List.mem_filter.mpr ⟨hent, ?_⟩
        rw [List.any_eq_true]
        exact ⟨m0, hm0, by simp [hname]⟩
      have hC : ((s.retimer.original_markers.filter
          (fun nf => s.markers.any (fun m2 => m2.name = nf.1))).map
            Prod.fst).contains m.name = true :=
        List.elem_iff.mpr hCmem
      rw [hC]
      simp
    | none =>
      have hnmem : m.name ∉ s.retimer.original_markers.map Prod.fst :=
        (dictGet_none_iff _ _).mp hd
      have hC : ((s.retimer.original_markers.filter
          (fun nf => s.markers.any (fun m2 => m2.name = nf.1))).map
            Prod.fst).contains m.name = false := by
        refine Bool.eq_false_iff.mpr (fun hc => hnmem ?_)
        obtain ⟨nf, hnf, hfst⟩ := List.mem_map.mp (List.elem_iff.mp hc)
        exact List.mem_map.mpr ⟨nf, List.mem_of_mem_filter hnf, hfst⟩
      rw [hC]
      simp

/-- Restoring one curve whose key was captured with the original (strictly
time-sorted) keyframe list reproduces exactly that key and list. -/
theorem restoreCurve_pair_eq (stored : List ((String × ℕ) × List Keyframe))
    (c2 c0 : FCurve) (hk : curveKey c2 = curveKey c0)
    (hlook : dictGet (curveKey c0) stored = some c0.keyframe_points)
    (hsort : c0.keyframe_points.Pairwise (fun a b => a.x < b.x)) :
    (curveKey (restoreCurve stored c2), (restoreCurve stored c2).keyframe_points) =
      (curveKey c0, c0.keyframe_points) := by
  have hck : ∀ X : List Keyframe, curveKey { c2 with keyframe_points := X } = curveKey c0 :=
    fun X => hk
  unfold restoreCurve
  rw [hk, hlook]
  refine Prod.ext (hck _) ?_
  show (if c0.keyframe_points.isEmpty then []
    else List.foldl insertKey []
      (List.insertionSort (fun a b => a.x ≤ b.x) c0.keyframe_points)) =
    c0.keyframe_points
  by_cases he : c0.keyframe_points.isEmpty = true
  · rw [if_pos he]
    rw [List.isEmpty_iff] at he
    rw [he]
  · rw [if_neg he]
    have hle : List.Sorted (fun a b : Keyframe => a.x ≤ b.x) c0.keyframe_points :=
      hsort.imp (fun hab => le_of_lt hab)
    rw [List.Sorted.insertionSort_eq hle,
      foldl_insertKey_of_pairwise c0.keyframe_points [] (by simpa using hsort),
      List.nil_append]

/-- Restoring a curve list whose keys match the captured one reproduces the
captured keys and keyframe lists pointwise. -/
theorem restore_map_eq (stored : List ((String × ℕ) × List Keyframe)) :
    ∀ (curves2 curves0 : List FCurve),
      curves2.map curveKey = curves0.map curveKey →
      (∀ c ∈ curves0, dictGet (curveKey c) stored = some c.keyframe_points) →
      (∀ c ∈ curves0, c.keyframe_points.Pairwise (fun a b => a.x < b.x)) →
      (curves2.map (restoreCurve stored)).map (fun c => (curveKey c, c.keyframe_points)) =
        curves0.map (fun c => (curveKey c, c.keyframe_points)) := by
  intro curves2
  induction curves2 with
  | nil =>
    intro curves0 h _ _
    cases curves0 with
    | nil => rfl
    | cons c0 t0 => simp at h
  | cons c2 t2 ih =>
    intro curves0 h hlook hsort
    cases curves0 with
    | nil => simp at h
    | cons c0 t0 =>
      simp only [List.map_cons, List.cons.injEq] at h
      rw [List.map_cons, List.map_cons, List.map_cons]
      refine congrArg₂ List.cons ?_ (ih t0 h.2 (fun c hc => hlook c (by simp [hc]))
        (fun c hc => hsort c (by simp [hc])))
      exact restoreCurve_pair_eq stored c2 c0 h.1 (hlook c0 (by simp)) (hsort c0 (by simp))

/-- Restoring a shape-equal object from the capture of the original object
reproduces the original's full animation data. -/
theorem restoreObject_objData (stored : List ((String × ℕ) × List Keyframe))
    (o2 o0 : Obj) (curves2 curves0 : List FCurve)
    (hanim2 : o2.anim = some curves2) (hanim0 : o0.anim = some curves0)
    (hname : o2.name = o0.name)
    (hkeq : curves2.map curveKey = curves0.map curveKey)
    (hlook : ∀ c ∈ curves0, dictGet (curveKey c) stored = some c.keyframe_points)
    (hsort : ∀ c ∈ curves0, c.keyframe_points.Pairwise (fun a b => a.x < b.x)) :
    objData (restoreObject stored o2) = objData o0 := by
  show (o2.name, (o2.anim.map (fun curves => curves.map (restoreCurve stored))).map
      (fun curves => curves.map (fun c => (curveKey c, c.keyframe_points)))) =
    (o0.name, o0.anim.map (fun curves => curves.map (fun c => (curveKey c, c.keyframe_points))))
  rw [hanim2, hanim0, hname]
  simp only [Option.map_some']
  rw [restore_map_eq stored curves2 curves0 hkeq hlook hsort]

/-- C2: for every session started by the start operator (Idle, at least 2
`RT_` markers, a selected animated object present) and after any sequence of
tick, marker-edit and host curve-write events, cancel restores every curve of
each selected animated object to a keyframe list field-equal to the capture
at begin (object data — curve keys with full keyframe tuples — equals its
begin-time value), restores every still-present captured marker to its
captured original frame, and removes every `RT_`-prefixed marker with no
captured counterpart; stated under unique object names, unique curve keys
and strictly time-sorted captured keyframes. -/
theorem C2_cancel_restores_capture
    (s0 : State) (steps : List Step) (o0 : Obj)
    (hact : s0.retimer_active = false)
    (hm : ¬ (get_ordered_markers s0.markers).length < 2)
    (hnames : (s0.objects.map (fun o => o.name)).Nodup)
    (hkeys : ∀ o ∈ s0.objects, ∀ curves, o.anim = some curves →
      (curves.map curveKey).Nodup)
    (hsorted : ∀ o ∈ s0.objects, ∀ curves, o.anim = some curves →
      ∀ c ∈ curves, c.keyframe_points.Pairwise (fun a b => a.x < b.x))
    (ho0 : o0 ∈ s0.objects) (hsel0 : o0.selected = true) (hanim0 : o0.anim.isSome = true) :
    retimeExecute s0 = (ExecResult.runningModal, beginState s0) ∧
    (findObj ((cancelRetiming (runSteps (retimeExecute s0).2 steps)).2).objects
        o0.name).map objData = some (objData o0) ∧
    ((cancelRetiming (runSteps (retimeExecute s0).2 steps)).2).markers =
      ((runSteps (retimeExecute s0).2 steps).markers.map
        (markerRestore (markersDict (get_ordered_markers s0.markers)))).filter
        (fun m => !(strStartsWith "RT_" m.name &&
          (dictGet m.name (markersDict (get_ordered_markers s0.markers))).isNone)) := by
  have hmemsel : o0 ∈ s0.objects.filter (fun o => o.selected && o.anim.isSome) :=
    List.mem_filter.mpr ⟨ho0, by simp [hsel0, hanim0]⟩
  have hselne : (s0.objects.filter (fun o => o.selected && o.anim.isSome)).isEmpty = false := by
    cases hfe : s0.objects.filter (fun o => o.selected && o.anim.isSome) with
    | nil => rw [hfe] at hmemsel; simp at hmemsel
    | cons a t => rfl
  have hbegin : retimeExecute s0 = (ExecResult.runningModal, beginState s0) :=
    retimeExecute_success s0 hact hm hselne
  have hbegin2 : (retimeExecute s0).2 = beginState s0 := by rw [hbegin]
  have hret2 : (runSteps (retimeExecute s0).2 steps).retimer = (beginState s0).retimer := by
    rw [hbegin2]
    exact runSteps_retimer_eq steps (beginState s0)
  have hshape2 : (runSteps (retimeExecute s0).2 steps).objects.map objShape =
      s0.objects.map objShape := by
    rw [hbegin2]
    exact runSteps_objects_shape steps (beginState s0)
  have hproc : (beginState s0).retimer.objects_processed =
      (s0.objects.filter (fun o => o.selected && o.anim.isSome)).map (fun o => o.name) := by
    show ((s0.objects.filter (fun o => o.selected && o.anim.isSome)).filter
      storeSucceeds).map (fun o => o.name) = _
    rw [filter_storeSucceeds_selected]
  have hom : (beginState s0).retimer.original_markers =
      markersDict (get_ordered_markers s0.markers) := rfl
  have htemp : dictGet o0.name (beginState s0).retimer.objects_temp_keyframe_data =
      some (captureObject o0) := by
    show dictGet o0.name
      ((s0.objects.filter (fun o => o.selected && o.anim.isSome)).foldl
        (fun d o => if storeSucceeds o then dictInsert d o.name (captureObject o) else d)
        []) = _
    exact temp_lookup_of_selected s0.objects o0 hnames ho0 hsel0 hanim0
  have hnd2 : ((s0.objects.filter (fun o => o.selected && o.anim.isSome)).map
      (fun o => o.name)).Nodup :=
    hnames.sublist ((List.filter_sublist s0.objects).map (fun o : Obj => o.name))
  have hprocmem : o0.name ∈ (beginState s0).retimer.objects_processed := by
    rw [hproc]
    exact List.mem_map.mpr ⟨o0, hmemsel, rfl⟩
  have hprocnd : (beginState s0).retimer.objects_processed.Nodup := by
    rw [hproc]
    exact hnd2
  have hms0ne : get_ordered_markers s0.markers ≠ [] := by
    intro hc
    rw [hc] at hm
    simp at hm
  set s2 := runSteps (retimeExecute s0).2 steps with hs2
  have hprocne : s2.retimer.objects_processed.isEmpty = false := by
    rw [hret2]
    cases hpe : (beginState s0).retimer.objects_processed with
    | nil => rw [hpe] at hprocmem; simp at hprocmem
    | cons a t => rfl
  have hguard : (s2.retimer.objects_processed.isEmpty &&
      s2.retimer.original_markers.isEmpty &&
      s2.retimer.objects_temp_keyframe_data.isEmpty) = false := by
    rw [hprocne]
    rfl
  have hcancel : cancelRetiming s2 = (ExecResult.finished,
      clearSessionKeys (cancelMarkerPhase (cancelRestorePhase
        { s2 with retimer_active := false }))) := by
    unfold cancelRetiming
    rw [if_neg (by rw [hguard]; exact Bool.false_ne_true)]
  have hfinal_objects : (cancelRetiming s2).2.objects =
      (cancelRestorePhase { s2 with retimer_active := false }).objects := by
    rw [hcancel]
    exact cancelMarkerPhase_objects _
  have hfinal_markers : (cancelRetiming s2).2.markers =
      (cancelMarkerPhase (cancelRestorePhase { s2 with retimer_active := false })).markers := by
    rw [hcancel]
    rfl
  have htempne : ({ s2 with retimer_active := false } :
      State).retimer.objects_temp_keyframe_data.isEmpty = false := by
    show s2.retimer.objects_temp_keyframe_data.isEmpty = false
    rw [hret2]
    cases hte : (beginState s0).retimer.objects_temp_keyframe_data with
    | nil => rw [hte] at htemp; simp [dictGet] at htemp
    | cons a t => rfl
  have hXret : (cancelRestorePhase { s2 with retimer_active := false }).retimer =
      (beginState s0).retimer := by
    rw [cancelRestorePhase_retimer]
    exact hret2
  have homnd : ((cancelRestorePhase { s2 with retimer_active :=
      false }).retimer.original_markers.map Prod.fst).Nodup := by
    rw [hXret, hom]
    exact nodup_keys_foldl_insert (fun m : Marker => m.name) (fun m : Marker => m.frame)
      (get_ordered_markers s0.markers) [] (by simp)
  have homne : (cancelRestorePhase { s2 with retimer_active :=
      false }).retimer.original_markers ≠ [] := by
    rw [hXret, hom]
    exact markersDict_ne_nil _ hms0ne
  have hb : (cancelRetiming s2).2.markers =
      (s2.markers.map (markerRestore (markersDict (get_ordered_markers s0.markers)))).filter
        (fun m => !(strStartsWith "RT_" m.name &&
          (dictGet m.name (markersDict (get_ordered_markers s0.markers))).isNone)) := by
    rw [hfinal_markers, cancelMarkerPhase_spec _ homnd homne, cancelRestorePhase_markers]
    rw [show ({ s2 with retimer_active := false } : State).markers = s2.markers from rfl]
    rw [hXret, hom]
  have hf2shape : (findObj s2.objects o0.name).map objShape = some (objShape o0) := by
    rw [findObj_shape_map_eq s2.objects s0.objects hshape2 o0.name,
      findObj_of_mem_nodup s0.objects hnames o0 ho0]
    rfl
  obtain ⟨o2, hf2, hsh⟩ : ∃ o2, findObj s2.objects o0.name = some o2 ∧
      objShape o2 = objShape o0 := by
    cases hf : findObj s2.objects o0.name with
    | none => rw [hf] at hf2shape; simp at hf2shape
    | some o2 =>
      rw [hf] at hf2shape
      simp only [Option.map_some', Option.some.injEq] at hf2shape
      exact ⟨o2, rfl, hf2shape⟩
  obtain ⟨curves0, hanim0'⟩ := Option.isSome_iff_exists.mp hanim0
  have hname2 : o2.name = o0.name := congrArg Prod.fst hsh
  have hanimsh : o2.anim.map (fun curves => curves.map curveKey) =
      o0.anim.map (fun curves => curves.map curveKey) := congrArg (fun p => p.2.2) hsh
  obtain ⟨curves2, hanim2⟩ : ∃ curves2, o2.anim = some curves2 := by
    cases ha : o2.anim with
    | none => rw [ha, hanim0'] at hanimsh; simp at hanimsh
    | some c2 => exact ⟨c2, rfl⟩
  have hkeq : curves2.map curveKey = curves0.map curveKey := by
    rw [hanim2, hanim0'] at hanimsh
    simpa using hanimsh
  have hcap : captureObject o0 = curves0.foldl
      (fun d c => dictInsert d (curveKey c) c.keyframe_points) [] := by
    unfold captureObject
    rw [hanim0']
    rfl
  have hlook : ∀ c ∈ curves0,
      dictGet (curveKey c) (captureObject o0) = some c.keyframe_points := by
    intro c hc
    rw [hcap]
    exact dictGet_build_of_nodup curveKey (fun c2 => c2.keyframe_points) curves0 c
      (hkeys o0 ho0 curves0 hanim0') hc
  have hrestored : objData (restoreObject (captureObject o0) o2) = objData o0 :=
    restoreObject_objData (captureObject o0) o2 o0 curves2 curves0 hanim2 hanim0'
      hname2 hkeq hlook (hsorted o0 ho0 curves0 hanim0')
  have hcu : cancelObjectUpdate (beginState s0).retimer.objects_temp_keyframe_data
      o0.name o2 = restoreObject (captureObject o0) o2 := by
    unfold cancelObjectUpdate
    rw [hanim2, htemp]
  have ha : (findObj ((cancelRetiming s2).2).objects o0.name).map objData =
      some (objData o0) := by
    rw [hfinal_objects]
    rw [cancelRestorePhase_findObj { s2 with retimer_active := false } o0.name htempne
      (by show s2.retimer.objects_processed.Nodup; rw [hret2]; exact hprocnd)
      (by show o0.name ∈ s2.retimer.objects_processed; rw [hret2]; exact hprocmem)]
    rw [show ({ s2 with retimer_active := false } : State).objects = s2.objects from rfl]
    rw [show ({ s2 with retimer_active := false } : State).retimer =
      (beginState s0).retimer from hret2]
    rw [hf2]
    simp only [Option.map_some']
    rw [hcu, hrestored]
  exact ⟨hbegin, ha, hb⟩

def sampleC2Obj : Obj :=
  { name := "Cube", selected := true,
    anim := some [{ data_path := "location", array_index := 0,
                    keyframe_points := [sampleKey, { sampleKey with x := 10 }] }] }

def sampleC2State : State :=
  { markers := [{ name := "RT_a", frame := 0 }, { name := "RT_b", frame := 10 }],
    objects := [sampleC2Obj],
    retimer := RetimerData.empty,
    retimer_active := false,
    snap := false,
    last_marker_positions := [] }

theorem C2_cancel_restores_capture_witness :
    retimeExecute sampleC2State = (ExecResult.runningModal, beginState sampleC2State) ∧
    (findObj ((cancelRetiming (runSteps (retimeExecute sampleC2State).2
        [Step.setMarkers [{ name := "RT_a", frame := 0 }, { name := "RT_b", frame := 20 }],
         Step.tick])).2).objects "Cube").map objData = some (objData sampleC2Obj) := by
  have h := C2_cancel_restores_capture sampleC2State
    [Step.setMarkers [{ name := "RT_a", frame := 0 }, { name := "RT_b", frame := 20 }],
     Step.tick] sampleC2Obj
    rfl
    (by decide)
    (by decide)
    (by
      intro o ho curves hc
      simp only [sampleC2State, List.mem_singleton] at ho
      subst ho
      simp only [sampleC2Obj, Option.some.injEq] at hc
      subst hc
      decide)
    (by
      intro o ho curves hc
      simp only [sampleC2State, List.mem_singleton] at ho
      subst ho
      simp only [sampleC2Obj, Option.some.injEq] at hc
      subst hc
      decide)
    (List.mem_singleton.mpr rfl)
    rfl
    rfl
  exact ⟨h.1, h.2.1⟩

end AnimRetimer
